import Mathlib

/-!
Verification of the two table-rendering scripts of the voice-to-text CLI:
`format-doctor-tables.py` (doctor view) and `format-storage-table.py`
(storage view).  The scripts consume a parsed JSON document and emit
aligned text tables.  We shallowly embed the JSON data model, the Python
dictionary/truthiness semantics used by the scripts, and the scripts
themselves as Lean functions returning `Except PyErr`, with the error
constructors mirroring the Python exception classes that the code can
raise (`AttributeError` from calling `.get` on a non-mapping,
`KeyError` from `playback['pid']`, `TypeError` from string
concatenation with a non-string or from iterating a non-iterable).
-/

/-- JSON values as produced by `json.loads`.  Numbers are modelled as
integers, which covers every numeric field the scripts touch. -/
inductive Json where
  | null : Json
  | bool : Bool → Json
  | num : Int → Json
  | str : String → Json
  | arr : List Json → Json
  | obj : List (String × Json) → Json

/-- Python exception classes observable from the scripts. -/
inductive PyErr where
  | attributeError : PyErr
  | keyError : PyErr
  | typeError : PyErr
deriving DecidableEq, Repr

/-- Whether a JSON value is a JSON object (a Python dict). -/
def Json.isObj : Json → Bool
  | .obj _ => true
  | _ => false

/-- Python truthiness of a JSON value (`bool(x)`). -/
def pyTruthy : Json → Bool
  | .null => false
  | .bool b => b
  | .num n => n != 0
  | .str s => s != ""
  | .arr xs => !xs.isEmpty
  | .obj fs => !fs.isEmpty

mutual

/-- Python `repr` of a JSON value (used for values nested in
containers when stringified). -/
def pyRepr : Json → String
  | .null => "None"
  | .bool b => if b then "True" else "False"
  | .num n => toString n
  | .str s => "'" ++ s ++ "'"
  | .arr xs => "[" ++ pyReprList xs ++ "]"
  | .obj fs => "\x7b" ++ pyReprFields fs ++ "\x7d"

/-- Comma-separated `repr` of list elements. -/
def pyReprList : List Json → String
  | [] => ""
  | [x] => pyRepr x
  | x :: y :: xs => pyRepr x ++ ", " ++ pyReprList (y :: xs)

/-- Comma-separated `repr` of dict entries. -/
def pyReprFields : List (String × Json) → String
  | [] => ""
  | [(k, v)] => "'" ++ k ++ "': " ++ pyRepr v
  | (k, v) :: f :: fs => "'" ++ k ++ "': " ++ pyRepr v ++ ", " ++ pyReprFields (f :: fs)

end

/-- Python `str` of a JSON value, as applied by PrettyTable to each cell. -/
def pyStr : Json → String
  | .str s => s
  | j => pyRepr j

/-- First-match association lookup in a JSON object's field list
(Python dict lookup; the parser keeps keys unique). -/
def lookupField : List (String × Json) → String → Option Json
  | [], _ => none
  | (k', v) :: fs, k => if k' = k then some v else lookupField fs k

/-- Total defaulted field access: `j.get(k, dflt)` when `j` is known to
be an object, and `dflt` otherwise.  Used on the specification side of
theorems; the executable embedding uses `pyGetD`. -/
def objGetD (j : Json) (k : String) (dflt : Json) : Json :=
  match j with
  | .obj fs => (lookupField fs k).getD dflt
  | _ => dflt

/-- Whether an object value has the given key. -/
def objHasKey (j : Json) (k : String) : Bool :=
  match j with
  | .obj fs => (lookupField fs k).isSome
  | _ => false

/-- Python `j.get(k, dflt)`: defaulted lookup on a dict, raising
`AttributeError` when the receiver is not a dict. -/
def pyGetD (j : Json) (k : String) (dflt : Json) : Except PyErr Json :=
  match j with
  | .obj fs => .ok ((lookupField fs k).getD dflt)
  | _ => .error .attributeError

/-- Python `j[k]` on a dict: raises `KeyError` when the key is absent
and `TypeError` when the receiver is not subscriptable by string. -/
def pyIndex (j : Json) (k : String) : Except PyErr Json :=
  match j with
  | .obj fs =>
    match lookupField fs k with
    | some v => .ok v
    | none => .error .keyError
  | _ => .error .typeError

/-- Python iteration over a value: lists yield their elements, dicts
their keys, strings their characters; everything else raises
`TypeError`. -/
def pyIterate : Json → Except PyErr (List Json)
  | .arr xs => .ok xs
  | .obj fs => .ok (fs.map (fun kv => .str kv.1))
  | .str s => .ok (s.data.map (fun ch => .str ⟨[ch]⟩))
  | _ => .error .typeError

/-- Whether a JSON value equals the Python string literal "system"
(only an identical string compares equal in Python). -/
def isStrSystem : Json → Bool
  | .str s => s == "system"
  | _ => false

/-! ### Table rendering

Modelled from the spec: the `PrettyTable` dependency is an external
library not contained in the repository.  Per the specification the
renderer produces left/right/center aligned, borderless tables: each
cell is padded to its column's width (the maximum cell width of the
column, including the header labels only when a header row is shown),
with one space of padding on each side, columns simply juxtaposed, and
rows joined by newlines. -/

/-- Column alignment. -/
inductive Align where
  | l : Align
  | r : Align
  | c : Align

/-- A run of `n` spaces. -/
def spaces (n : Nat) : List Char := List.replicate n ' '

/-- Justify a cell to the column width. -/
def justify (a : Align) (w : Nat) (s : String) : List Char :=
  let d := w - s.length
  match a with
  | .l => s.data ++ spaces d
  | .r => spaces d ++ s.data
  | .c => spaces (d / 2) ++ s.data ++ spaces (d - d / 2)

/-- One rendered cell: one space of padding on each side of the
justified text. -/
def renderCell (a : Align) (w : Nat) (s : String) : List Char :=
  ' ' :: (justify a w s ++ [' '])

/-- One rendered row. -/
def renderRowL (aws : List (Align × Nat)) (row : List String) : List Char :=
  (List.zipWith (fun aw s => renderCell aw.1 aw.2 s) aws row).flatten

/-- Column widths: the maximum cell width per column over `rows`,
starting from `init` (all zeroes for headerless tables, the header
label widths when a header is shown). -/
def colWidths (init : List Nat) (rows : List (List String)) : List Nat :=
  rows.foldl (fun acc row => List.zipWith max acc (row.map String.length)) init

/-- Newline-style join of character lists. -/
def joinSep (sep : List Char) : List (List Char) → List Char
  | [] => []
  | [x] => x
  | x :: y :: xs => x ++ sep ++ joinSep sep (y :: xs)

/-- Render a headerless table (`header = False`) with `n` columns. -/
def renderTableL (n : Nat) (aligns : List Align) (rows : List (List String)) : List Char :=
  let widths := colWidths (List.replicate n 0) rows
  joinSep ['\n'] (rows.map (renderRowL (aligns.zip widths)))

/-- Render a headerless table to a string. -/
def renderTableStr (n : Nat) (aligns : List Align) (rows : List (List String)) : String :=
  ⟨renderTableL n aligns rows⟩

/-- Render a table with a shown header row (`header = True`). -/
def renderTableHdr (names : List String) (aligns : List Align)
    (rows : List (List String)) : String :=
  let widths := colWidths (names.map String.length) rows
  ⟨joinSep ['\n'] ((names :: rows).map (renderRowL (aligns.zip widths)))⟩

/-- Python `"sep".join(xs)`. -/
def pyJoin (sep : String) (xs : List String) : String :=
  ⟨joinSep sep.data (xs.map String.data)⟩

/-- Prefix test on character lists. -/
def preB : List Char → List Char → Bool
  | [], _ => true
  | _ :: _, [] => false
  | c :: p, d :: s => c == d && preB p s

/-- Fuel-indexed scanner underlying `pyReplace` (structurally
recursive on the fuel so that it evaluates by reduction; the fuel never
runs out when it starts at the list's length). -/
def pyReplaceF (p q : List Char) : Nat → List Char → List Char
  | _, [] => []
  | 0, s => s
  | fuel + 1, c :: cs =>
    if p ≠ [] ∧ preB p (c :: cs) = true then
      q ++ pyReplaceF p q fuel ((c :: cs).drop p.length)
    else
      c :: pyReplaceF p q fuel cs

/-- Python `s.replace(pat, repl)`: leftmost, non-overlapping
replacement, continuing after each replaced occurrence (the scripts
only call it with nonempty patterns). -/
def pyReplace (p q : List Char) (s : List Char) : List Char :=
  pyReplaceF p q s.length s

theorem pyReplaceF_fuel2 (p q : List Char) :
    ∀ n s f₁ f₂, s.length ≤ n → s.length ≤ f₁ → s.length ≤ f₂ →
      pyReplaceF p q f₁ s = pyReplaceF p q f₂ s := by
  intro n
  induction n with
  | zero =>
    intro s f₁ f₂ hn _ _
    rw [List.length_eq_zero.mp (Nat.le_zero.mp hn)]
    cases f₁ <;> cases f₂ <;> rfl
  | succ n ih =>
    intro s f₁ f₂ hn h1 h2
    cases s with
    | nil => cases f₁ <;> cases f₂ <;> rfl
    | cons c cs =>
      cases f₁ with
      | zero => simp at h1
      | succ g₁ =>
        cases f₂ with
        | zero => simp at h2
        | succ g₂ =>
          by_cases h : p ≠ [] ∧ preB p (c :: cs) = true
          · have hp1 : 1 ≤ p.length := by
              cases p with
              | nil => exact absurd rfl h.1
              | cons a as => simp
            show (if p ≠ [] ∧ preB p (c :: cs) = true then
                q ++ pyReplaceF p q g₁ ((c :: cs).drop p.length)
              else c :: pyReplaceF p q g₁ cs) =
              (if p ≠ [] ∧ preB p (c :: cs) = true then
                q ++ pyReplaceF p q g₂ ((c :: cs).drop p.length)
              else c :: pyReplaceF p q g₂ cs)
            rw [if_pos h, if_pos h]
            congr 1
            apply ih
            · simp [List.length_drop] at *
              omega
            · simp [List.length_drop] at *
              omega
            · simp [List.length_drop] at *
              omega
          · show (if p ≠ [] ∧ preB p (c :: cs) = true then
                q ++ pyReplaceF p q g₁ ((c :: cs).drop p.length)
              else c :: pyReplaceF p q g₁ cs) =
              (if p ≠ [] ∧ preB p (c :: cs) = true then
                q ++ pyReplaceF p q g₂ ((c :: cs).drop p.length)
              else c :: pyReplaceF p q g₂ cs)
            rw [if_neg h, if_neg h]
            congr 1
            apply ih
            · simp at hn
              omega
            · simp at h1
              omega
            · simp at h2
              omega

/-- String wrapper for `pyReplace`. -/
def strReplace (s pat repl : String) : String :=
  ⟨pyReplace pat.data repl.data s.data⟩

/-- A chain of `.replace` calls applied left to right. -/
def replaceChain (ps : List (String × String)) (s : String) : String :=
  ps.foldl (fun acc pq => strReplace acc pq.1 pq.2) s

/-! ### The storage view (`format-storage-table.py`) -/

/-- Filter of `models.items`: the list comprehension
`[m for m in model_items if m.get("downloaded")]`. -/
def filterDownloaded : List Json → Except PyErr (List Json)
  | [] => .ok []
  | m :: ms => do
    let dflag ← pyGetD m "downloaded" .null
    let rest ← filterDownloaded ms
    pure (if pyTruthy dflag then m :: rest else rest)

/-- One evaluation of the comprehension condition
`v.get("downloaded") and v.get("provider") != "system"` (the provider
access is only evaluated when the downloaded flag is truthy, mirroring
Python's short-circuit `and`). -/
def voiceKeepM (v : Json) : Except PyErr Bool := do
  let dflag ← pyGetD v "downloaded" .null
  if pyTruthy dflag then
    let pr ← pyGetD v "provider" .null
    pure (!(isStrSystem pr))
  else
    pure false

def filterVoices : List Json → Except PyErr (List Json)
  | [] => .ok []
  | v :: vs => do
    let keep ← voiceKeepM v
    let rest ← filterVoices vs
    pure (if keep then v :: rest else rest)

/-- Row of the STT Models table for one downloaded model:
`path = m.get("path", "N/A") or "N/A"` then
`[m.get("alias", ""), m.get("size_human", "0 B"), path]`. -/
def modelRowM (m : Json) : Except PyErr (List String) := do
  let p ← pyGetD m "path" (.str "N/A")
  let pathv := if pyTruthy p then p else Json.str "N/A"
  let aliasV ← pyGetD m "alias" (.str "")
  let size ← pyGetD m "size_human" (.str "0 B")
  pure [pyStr aliasV, pyStr size, pyStr pathv]

/-- Row of the TTS Voices table for one downloaded voice. -/
def voiceRowM (v : Json) : Except PyErr (List String) := do
  let p ← pyGetD v "path" (.str "N/A")
  let pathv := if pyTruthy p then p else Json.str "N/A"
  let aliasV ← pyGetD v "alias" (.str "")
  let prov ← pyGetD v "provider" (.str "")
  let size ← pyGetD v "size_human" (.str "0 B")
  pure [pyStr aliasV, pyStr prov, pyStr size, pyStr pathv]

/-- All values that `format_storage_table` extracts from the report, in
source evaluation order, after PrettyTable's cell stringification. -/
structure StorageVals where
  pySize : String
  pyPath : String
  soxSize : String
  soxPath : String
  ddSize : String
  ddPath : String
  sttSize : String
  daemonSize : String
  sttRecSize : String
  ttsSize : String
  voicesSize : String
  prevSize : String
  ttsRecSize : String
  tmpSize : String
  venvSize : String
  hfSize : String
  hfPath : String
  hfModelsSize : String
  modelRows : List (List String)
  voiceRows : List (List String)
  grandTotal : String

/-- Field extraction phase of `format_storage_table`, with every
defaulted `.get` chain evaluated in source order. -/
def storageVals (data : Json) : Except PyErr StorageVals := do
  let deps ← pyGetD data "dependencies" (.obj [])
  let py1 ← pyGetD deps "python" (.obj [])
  let pySize ← pyGetD py1 "size_human" (.str "0 B")
  let py2 ← pyGetD deps "python" (.obj [])
  let pyPath ← pyGetD py2 "path" (.str "")
  let sox1 ← pyGetD deps "sox" (.obj [])
  let soxSize ← pyGetD sox1 "size_human" (.str "0 B")
  let sox2 ← pyGetD deps "sox" (.obj [])
  let soxPath ← pyGetD sox2 "path" (.str "")
  let storage ← pyGetD data "storage" (.obj [])
  let dataDir ← pyGetD storage "data_dir" (.obj [])
  let hf ← pyGetD storage "huggingface_cache" (.obj [])
  let ddSize ← pyGetD dataDir "size_human" (.str "0 B")
  let ddPath ← pyGetD dataDir "path" (.str "")
  let stt1 ← pyGetD dataDir "stt" (.obj [])
  let sttSize ← pyGetD stt1 "size_human" (.str "0 B")
  let stt2 ← pyGetD dataDir "stt" (.obj [])
  let daemon ← pyGetD stt2 "daemon" (.obj [])
  let daemonSize ← pyGetD daemon "size_human" (.str "0 B")
  let stt3 ← pyGetD dataDir "stt" (.obj [])
  let sttRec ← pyGetD stt3 "recordings" (.obj [])
  let sttRecSize ← pyGetD sttRec "size_human" (.str "0 B")
  let tts1 ← pyGetD dataDir "tts" (.obj [])
  let ttsSize ← pyGetD tts1 "size_human" (.str "0 B")
  let tts2 ← pyGetD dataDir "tts" (.obj [])
  let voicesDir ← pyGetD tts2 "voices" (.obj [])
  let voicesSize ← pyGetD voicesDir "size_human" (.str "0 B")
  let tts3 ← pyGetD dataDir "tts" (.obj [])
  let prevDir ← pyGetD tts3 "previews" (.obj [])
  let prevSize ← pyGetD prevDir "size_human" (.str "0 B")
  let tts4 ← pyGetD dataDir "tts" (.obj [])
  let ttsRecDir ← pyGetD tts4 "recordings" (.obj [])
  let ttsRecSize ← pyGetD ttsRecDir "size_human" (.str "0 B")
  let tts5 ← pyGetD dataDir "tts" (.obj [])
  let tmpDir ← pyGetD tts5 "tmp" (.obj [])
  let tmpSize ← pyGetD tmpDir "size_human" (.str "0 B")
  let venvDir ← pyGetD dataDir "venv" (.obj [])
  let venvSize ← pyGetD venvDir "size_human" (.str "0 B")
  let hfSize ← pyGetD hf "size_human" (.str "0 B")
  let hfPath ← pyGetD hf "path" (.str "")
  let hfModels ← pyGetD hf "models" (.obj [])
  let hfModelsSize ← pyGetD hfModels "size_human" (.str "0 B")
  let models ← pyGetD data "models" (.obj [])
  let modelItems ← pyGetD models "items" (.arr [])
  let mlist ← pyIterate modelItems
  let dm ← filterDownloaded mlist
  let modelRows ← dm.mapM modelRowM
  let voices ← pyGetD data "voices" (.obj [])
  let voiceItems ← pyGetD voices "items" (.arr [])
  let vlist ← pyIterate voiceItems
  let dv ← filterVoices vlist
  let voiceRows ← dv.mapM voiceRowM
  let totals ← pyGetD data "totals" (.obj [])
  let gt ← pyGetD totals "grand_total_human" (.str "0 B")
  pure
    { pySize := pyStr pySize, pyPath := pyStr pyPath
      soxSize := pyStr soxSize, soxPath := pyStr soxPath
      ddSize := pyStr ddSize, ddPath := pyStr ddPath
      sttSize := pyStr sttSize, daemonSize := pyStr daemonSize
      sttRecSize := pyStr sttRecSize, ttsSize := pyStr ttsSize
      voicesSize := pyStr voicesSize, prevSize := pyStr prevSize
      ttsRecSize := pyStr ttsRecSize, tmpSize := pyStr tmpSize
      venvSize := pyStr venvSize, hfSize := pyStr hfSize
      hfPath := pyStr hfPath, hfModelsSize := pyStr hfModelsSize
      modelRows := modelRows, voiceRows := voiceRows
      grandTotal := pyStr gt }

/-- The header labels that the storage script strips by literal string
replacement. -/
def headerLabels : List String :=
  ["Name", "Size", "Path", "Alias", "Provider", "Description"]

/-- Rows of the Dependencies table. -/
def depsRows (v : StorageVals) : List (List String) :=
  [["Python", v.pySize, v.pyPath], ["Sox", v.soxSize, v.soxPath]]

/-- Dependencies table block: rendered headerless, then
`.replace("Name", "  ").replace("Size", "").replace("Path", "")`. -/
def depsBlock (v : StorageVals) : String :=
  replaceChain [("Name", "  "), ("Size", ""), ("Path", "")]
    (renderTableStr 3 [Align.l, Align.r, Align.l] (depsRows v))

/-- Rows of the Storage Directories table. -/
def dirRows (v : StorageVals) : List (List String) :=
  [["Data Directory", v.ddSize, v.ddPath],
   ["  stt/", v.sttSize, "(daemon, recordings)"],
   ["    daemon/", v.daemonSize, "(scripts, logs)"],
   ["    recordings/", v.sttRecSize, "(transcription audio)"],
   ["  tts/", v.ttsSize, "(voices, previews, recordings)"],
   ["    voices/", v.voicesSize, "(downloaded TTS voices)"],
   ["    previews/", v.prevSize, "(voice previews)"],
   ["    recordings/", v.ttsRecSize, "(saved TTS output)"],
   ["    tmp/", v.tmpSize, "(temporary files)"],
   ["  venv/", v.venvSize, "(Python environment)"],
   ["HuggingFace Cache", v.hfSize, v.hfPath],
   ["  models/", v.hfModelsSize, "(STT models)"]]

/-- Storage Directories table block. -/
def dirsBlock (v : StorageVals) : String :=
  replaceChain [("Name", "  "), ("Size", ""), ("Description", "")]
    (renderTableStr 3 [Align.l, Align.r, Align.l] (dirRows v))

/-- STT Models section content: the filtered table with
`.replace("Alias", "  ").replace("Size", "").replace("Path", "")`, or
the fallback line. -/
def modelsOut (v : StorageVals) : String :=
  if v.modelRows.isEmpty then "  (no models downloaded)"
  else
    replaceChain [("Alias", "  "), ("Size", ""), ("Path", "")]
      (renderTableStr 3 [Align.l, Align.r, Align.l] v.modelRows)

/-- TTS Voices section content. -/
def voicesOut (v : StorageVals) : String :=
  if v.voiceRows.isEmpty then "  (no voices downloaded)"
  else
    replaceChain [("Alias", "  "), ("Provider", ""), ("Size", ""), ("Path", "")]
      (renderTableStr 4 [Align.l, Align.l, Align.r, Align.l] v.voiceRows)

/-- Rows of the Total Storage Used table. -/
def totalsRows (v : StorageVals) : List (List String) := [["", v.grandTotal]]

/-- Total Storage Used table block (no replacements are applied to it). -/
def totalsBlock (v : StorageVals) : String :=
  renderTableStr 2 [Align.l, Align.r] (totalsRows v)

/-- The 60-character separator line (with the trailing newline the
script appends to it). -/
def sepLine : String := ⟨List.replicate 60 '='⟩ ++ "\n"

/-- The `lines` list built by `format_storage_table`, one element per
`lines.append` call. -/
def storageLinesOfVals (v : StorageVals) : List String :=
  ["\nVTT Storage Usage", sepLine,
   "Dependencies", depsBlock v, "",
   "Storage Directories", dirsBlock v, "",
   "STT Models", modelsOut v, "",
   "TTS Voices", voicesOut v, "",
   totalsBlock v]

/-- Every data cell string taken from the report (as opposed to the
fixed label and description cells). -/
def storageCells (v : StorageVals) : List String :=
  [v.pySize, v.pyPath, v.soxSize, v.soxPath,
   v.ddSize, v.ddPath, v.sttSize, v.daemonSize, v.sttRecSize,
   v.ttsSize, v.voicesSize, v.prevSize, v.ttsRecSize, v.tmpSize,
   v.venvSize, v.hfSize, v.hfPath, v.hfModelsSize] ++
  v.modelRows.flatten ++ v.voiceRows.flatten ++ [v.grandTotal]

/-- The `lines` list of `format_storage_table` (the function raises,
producing no output at all, when a defaulted access fails). -/
def formatStorageLines (data : Json) : Except PyErr (List String) :=
  (storageVals data).map storageLinesOfVals

/-- Full output of `format_storage_table`: `"\n".join(lines)`. -/
def formatStorageTable (data : Json) : Except PyErr String :=
  (storageVals data).map (fun v => pyJoin "\n" (storageLinesOfVals v))

/-- Pure extraction of `models.items` when it is a JSON list. -/
def modelsItemsOf (d : Json) : Option (List Json) :=
  match objGetD (objGetD d "models" (.obj [])) "items" (.arr []) with
  | .arr xs => some xs
  | _ => none

/-- Pure extraction of `voices.items` when it is a JSON list. -/
def voicesItemsOf (d : Json) : Option (List Json) :=
  match objGetD (objGetD d "voices" (.obj [])) "items" (.arr []) with
  | .arr xs => some xs
  | _ => none

/-- Pure model filter predicate: the downloaded flag is truthy. -/
def modelKeep (m : Json) : Bool := pyTruthy (objGetD m "downloaded" .null)

/-- Pure voice filter predicate: downloaded truthy and provider not the
literal string "system". -/
def voiceKeep (v : Json) : Bool :=
  pyTruthy (objGetD v "downloaded" .null) && !(isStrSystem (objGetD v "provider" .null))

/-- Pure STT Models row of a downloaded model object. -/
def modelRowOf (m : Json) : List String :=
  [pyStr (objGetD m "alias" (.str "")),
   pyStr (objGetD m "size_human" (.str "0 B")),
   pyStr (let p := objGetD m "path" (.str "N/A"); if pyTruthy p then p else Json.str "N/A")]

/-- Pure TTS Voices row of a downloaded voice object. -/
def voiceRowOf (v : Json) : List String :=
  [pyStr (objGetD v "alias" (.str "")),
   pyStr (objGetD v "provider" (.str "")),
   pyStr (objGetD v "size_human" (.str "0 B")),
   pyStr (let p := objGetD v "path" (.str "N/A"); if pyTruthy p then p else Json.str "N/A")]

/-! ### The doctor view (`format-doctor-tables.py`) -/

/-- Runtime-type display lookup of lines 12 to 16 of the doctor script:
a fixed dictionary lookup falling back to the raw value (the trailing
`or runtime_type` is a no-op on strings since a falsy string is the
empty string, which the lookup already returns unchanged). -/
def runtimeTypeDisplay (s : String) : String :=
  if s = "bundled" then "Bundled (self-contained)"
  else if s = "system" then "System"
  else if s = "custom" then "Custom (env override)"
  else s

/-- Value of `runtime_type_value` (line 18): the display string with a
check-mark glyph added unless the raw type is "system".  The string
concatenation raises `TypeError` when the raw type is not a string. -/
def runtimeTypeValue : Json → Except PyErr String
  | .str s =>
    .ok (if s ≠ "system" then "✓ " ++ runtimeTypeDisplay s else runtimeTypeDisplay s)
  | _ => .error .typeError

/-- All values the doctor script extracts from the report, in source
evaluation order. -/
structure DoctorVals where
  rtv : String
  rpython : Json
  rsox : Json
  rdata : Json
  ssox : Json
  safplay : Json
  ssay : Json
  whisper : Json
  parakeet : Json
  mwhisper : Json
  mparakeet : Json
  pavail : Json
  kavail : Json
  kserver : Json
  pvoices : Json
  kvoices : Json
  playbackStatus : String
  envRows : Option (List (List String))

/-- Playback status of line 78 of the doctor script:
`f"Active (PID: {playback['pid']})" if playback.get("active") else "Stopped"`.
The unguarded subscript raises `KeyError` when `active` is truthy but
`pid` is absent. -/
def playbackStatusM (playback : Json) : Except PyErr String := do
  let pactive ← pyGetD playback "active" .null
  if pyTruthy pactive then
    let pid ← pyIndex playback "pid"
    pure ("Active (PID: " ++ pyStr pid ++ ")")
  else
    pure "Stopped"

/-- Environment-variables rows of lines 90 to 100: built only when
`data.get("environment")` is truthy, by iterating `.items()` (which
raises `AttributeError` on a truthy non-dict). -/
def envRowsM (env : Json) : Except PyErr (Option (List (List String))) :=
  if pyTruthy env then
    match env with
    | .obj fs => .ok (some (fs.map (fun kv => [kv.1, pyStr kv.2])))
    | _ => .error .attributeError
  else
    .ok none

/-- Field extraction phase of the doctor script's `main`, with every
fallible operation in source order.  All extraction happens before the
first `print`, so a raised exception produces no output at all. -/
def doctorVals (data : Json) : Except PyErr DoctorVals := do
  let runtime ← pyGetD data "runtime" (.obj [])
  let rtype ← pyGetD runtime "type" (.str "unknown")
  let rtv ← runtimeTypeValue rtype
  let rpython ← pyGetD runtime "python" (.str "")
  let rsox ← pyGetD runtime "sox" (.str "")
  let rdata ← pyGetD runtime "data_dir" (.str "")
  let deps ← pyGetD data "dependencies" (.obj [])
  let system ← pyGetD deps "system" (.obj [])
  let engines ← pyGetD deps "engines" (.obj [])
  let ssox ← pyGetD system "sox" .null
  let safplay ← pyGetD system "afplay" .null
  let ssay ← pyGetD system "say" .null
  let whisper ← pyGetD engines "whisper" .null
  let parakeet ← pyGetD engines "parakeet" .null
  let models1 ← pyGetD data "models" (.obj [])
  let mwhisper ← pyGetD models1 "whisper" (.num 0)
  let models2 ← pyGetD data "models" (.obj [])
  let mparakeet ← pyGetD models2 "parakeet" (.num 0)
  let piper ← pyGetD engines "piper" (.obj [])
  let kokoro ← pyGetD engines "kokoro" (.obj [])
  let pavail ← pyGetD piper "available" .null
  let kavail ← pyGetD kokoro "available" .null
  let kserver ← pyGetD kokoro "server_running" .null
  let pvoices ← pyGetD piper "voices" (.num 0)
  let kvoices ← pyGetD kokoro "voices" (.num 0)
  let playback ← pyGetD data "playback" (.obj [])
  let playbackStatus ← playbackStatusM playback
  let kserver2 ← pyGetD kokoro "server_running" .null
  let env ← pyGetD data "environment" .null
  let envRows ← envRowsM env
  pure
    { rtv := rtv, rpython := rpython, rsox := rsox, rdata := rdata
      ssox := ssox, safplay := safplay, ssay := ssay
      whisper := whisper, parakeet := parakeet
      mwhisper := mwhisper, mparakeet := mparakeet
      pavail := pavail, kavail := kavail, kserver := kserver2
      pvoices := pvoices, kvoices := kvoices
      playbackStatus := playbackStatus, envRows := envRows }

/-- Installed/available glyph: `"✓" if x else "✗"`. -/
def glyph (j : Json) : String := if pyTruthy j then "✓" else "✗"

/-- The row contents of every table the doctor script builds. -/
structure DoctorTables where
  runtimeRows : List (List String)
  depsRows : List (List String)
  sttRows : List (List String)
  ttsRows : List (List String)
  servicesRows : List (List String)
  envRows : Option (List (List String))

/-- Table construction phase of the doctor script (pure). -/
def doctorTablesOfVals (v : DoctorVals) : DoctorTables :=
  { runtimeRows :=
      [["Python", pyStr v.rpython], ["Sox", pyStr v.rsox], ["Data", pyStr v.rdata]]
    depsRows :=
      [["Sox", glyph v.ssox], ["afplay", glyph v.safplay], ["say", glyph v.ssay]]
    sttRows :=
      [["Whisper", glyph v.whisper, pyStr v.mwhisper],
       ["Parakeet", glyph v.parakeet, pyStr v.mparakeet]]
    ttsRows :=
      [["Piper", glyph v.pavail, pyStr v.pvoices],
       ["Kokoro", glyph v.kavail ++ (if pyTruthy v.kserver then " (server)" else ""),
        pyStr v.kvoices]]
    servicesRows :=
      [["Playback", v.playbackStatus],
       ["Kokoro Server", if pyTruthy v.kserver then "Running" else "Not running"]]
    envRows := v.envRows }

/-- The lines printed by the doctor script, one element per `print`
call (tables print as one multi-line string). -/
def renderDoctorLines (t : DoctorTables) : List String :=
  ["Runtime:", renderTableStr 2 [Align.l, Align.l] t.runtimeRows] ++
  (match t.envRows with
   | some e => ["", "Env Variables:", renderTableStr 2 [Align.l, Align.l] e]
   | none => []) ++
  ["", "Dependencies:", renderTableStr 2 [Align.l, Align.c] t.depsRows,
   "", "Speech-to-Text:",
   renderTableHdr ["Engine", "installed", "Models"] [Align.l, Align.c, Align.c] t.sttRows,
   "", "Text-to-Speech:",
   renderTableHdr ["Engine", "installed", "Voices"] [Align.l, Align.c, Align.c] t.ttsRows,
   "", "Background Services:", renderTableStr 2 [Align.l, Align.l] t.servicesRows]

/-- Tables built by the doctor script's `main`. -/
def doctorTables (data : Json) : Except PyErr DoctorTables :=
  (doctorVals data).map doctorTablesOfVals

/-- Full run of the doctor script's `main` on a parsed JSON document:
the printed lines, or the raised exception (raised before anything is
printed). -/
def doctorMain (data : Json) : Except PyErr (List String) :=
  (doctorVals data).map (fun v => renderDoctorLines (doctorTablesOfVals v))

/-- Pure extraction of the `kokoro` engine object:
`data.get("dependencies", …).get("engines", …).get("kokoro", …)` with
the script's defaults. -/
def dvKokoro (data : Json) : Except PyErr Json := do
  let deps ← pyGetD data "dependencies" (.obj [])
  let engines ← pyGetD deps "engines" (.obj [])
  pyGetD engines "kokoro" (.obj [])

/-! ### Substring machinery

Occurrence-of-a-pattern reasoning used to analyse the storage script's
header stripping (`output.replace("Name", "  ")` and friends). -/

/-- Pattern `p` occurs contiguously inside `s`. -/
def SubL (p s : List Char) : Prop := ∃ a b, s = a ++ p ++ b

/-- Substring test on character lists. -/
def subB (p : List Char) : List Char → Bool
  | [] => p.isEmpty
  | c :: s' => preB p (c :: s') || subB p s'

theorem preB_iff {p s : List Char} : preB p s = true ↔ ∃ t, s = p ++ t := by
  induction p generalizing s with
  | nil => simp [preB]
  | cons c p ih =>
    cases s with
    | nil => simp [preB]
    | cons d s' =>
      simp only [preB, Bool.and_eq_true, beq_iff_eq]
      constructor
      · rintro ⟨rfl, h⟩
        obtain ⟨t, rfl⟩ := ih.mp h
        exact ⟨t, rfl⟩
      · rintro ⟨t, ht⟩
        injection ht with h1 h2
        exact ⟨h1.symm, ih.mpr ⟨t, h2⟩⟩

theorem subB_iff {p s : List Char} : subB p s = true ↔ SubL p s := by
  induction s with
  | nil =>
    simp only [subB, List.isEmpty_iff, SubL]
    constructor
    · rintro rfl; exact ⟨[], [], rfl⟩
    · rintro ⟨a, b, h⟩
      rcases a <;> rcases p <;> simp_all
  | cons c s' ih =>
    simp only [subB, Bool.or_eq_true, ih, preB_iff]
    constructor
    · rintro (⟨t, ht⟩ | ⟨a, b, rfl⟩)
      · exact ⟨[], t, ht⟩
      · exact ⟨c :: a, b, rfl⟩
    · rintro ⟨a, b, h⟩
      cases a with
      | nil => exact .inl ⟨b, by simpa using h⟩
      | cons d a' =>
        injection h with h1 h2
        exact .inr ⟨a', b, h2⟩

instance (p s : List Char) : Decidable (SubL p s) :=
  decidable_of_iff (subB p s = true) subB_iff

/-- Occurrence of one string inside another. -/
def Substr (p s : String) : Prop := SubL p.data s.data

instance (p s : String) : Decidable (Substr p s) := by
  unfold Substr; infer_instance

theorem subL_appL {p a : List Char} (b : List Char) (h : SubL p a) : SubL p (a ++ b) := by
  obtain ⟨x, y, rfl⟩ := h
  exact ⟨x, y ++ b, by simp⟩

theorem subL_appR {p b : List Char} (a : List Char) (h : SubL p b) : SubL p (a ++ b) := by
  obtain ⟨x, y, rfl⟩ := h
  exact ⟨a ++ x, y, by simp⟩

theorem subL_cons {p s : List Char} (c : Char) (h : SubL p s) : SubL p (c :: s) := by
  obtain ⟨x, y, rfl⟩ := h
  exact ⟨c :: x, y, rfl⟩

theorem subL_trans {p q s : List Char} (h1 : SubL p q) (h2 : SubL q s) : SubL p s := by
  obtain ⟨x, y, rfl⟩ := h1
  obtain ⟨u, w, rfl⟩ := h2
  exact ⟨u ++ x, y ++ w, by simp⟩

theorem subL_mem {p s : List Char} {c : Char} (h : SubL p s) (hc : c ∈ p) : c ∈ s := by
  obtain ⟨x, y, rfl⟩ := h
  simp [hc]

theorem subL_nil_pat (s : List Char) : SubL [] s := ⟨[], s, by simp⟩

theorem subL_self (s : List Char) : SubL s s := ⟨[], [], by simp⟩

/-- Elimination of an occurrence at the head of a list. -/
theorem subCons {p : List Char} {c : Char} {l : List Char} (h : SubL p (c :: l)) :
    (∃ t, c :: l = p ++ t) ∨ SubL p l := by
  obtain ⟨a, b, hab⟩ := h
  cases a with
  | nil => exact .inl ⟨b, by simpa using hab⟩
  | cons d a' =>
    injection hab with h1 h2
    exact .inr ⟨a', b, h2⟩

/-- Splitting an equation `a ++ b = p ++ t`: the pattern `p` either fits
inside `a` or swallows all of `a` and continues into `b`. -/
theorem preSplit {a b p t : List Char} (h : a ++ b = p ++ t) :
    (∃ u, a = p ++ u) ∨ (∃ p₂ y, p = a ++ p₂ ∧ b = p₂ ++ y) := by
  induction a generalizing p with
  | nil => exact .inr ⟨p, t, by simp, h⟩
  | cons c a' ih =>
    cases p with
    | nil => exact .inl ⟨c :: a', by simp⟩
    | cons d p' =>
      injection h with h1 h2
      subst h1
      rcases ih h2 with ⟨u, hu⟩ | ⟨p₂, y, hp, hb⟩
      · exact .inl ⟨u, by rw [hu]; rfl⟩
      · exact .inr ⟨p₂, y, by rw [hp]; rfl, hb⟩

/-- Splitting an occurrence inside an append: inside the left part,
inside the right part, or spanning the boundary. -/
theorem subSplit {p a b : List Char} (h : SubL p (a ++ b)) :
    SubL p a ∨ SubL p b ∨
      ∃ p₁ p₂, p = p₁ ++ p₂ ∧ p₁ ≠ [] ∧ p₂ ≠ [] ∧
        (∃ x, a = x ++ p₁) ∧ (∃ y, b = p₂ ++ y) := by
  induction a with
  | nil => exact .inr (.inl (by simpa using h))
  | cons c a' ih =>
    rcases subCons (by simpa using h) with ⟨t, ht⟩ | hsub
    · cases p with
      | nil => exact .inl (subL_nil_pat _)
      | cons d p' =>
        injection ht with h1 h2
        subst h1
        rcases preSplit h2 with ⟨u, hu⟩ | ⟨p₂, y, hp, hb⟩
        · exact .inl ⟨[], u, by simp [hu]⟩
        · cases p₂ with
          | nil =>
            refine .inl ⟨[], [], ?_⟩
            simp only [List.append_nil] at hp
            simp [hp]
          | cons e p₂' =>
            refine .inr (.inr ⟨c :: a', e :: p₂', by simp [hp], by simp, by simp,
              ⟨[], rfl⟩, ⟨y, hb⟩⟩)
    · rcases ih hsub with h1 | h2 | ⟨p₁, p₂, hp, hp1, hp2, ⟨x, hx⟩, hy⟩
      · exact .inl (subL_cons c h1)
      · exact .inr (.inl h2)
      · exact .inr (.inr ⟨p₁, p₂, hp, hp1, hp2, ⟨c :: x, by simp [hx]⟩, hy⟩)

/-- Separator characters: the space and newline padding that the table
renderer inserts around cells and between rows. -/
def isSep (c : Char) : Bool := c == ' ' || c == '\n'

/-- A pattern containing no separator characters (true of every header
label the script replaces). -/
def sepFree (p : List Char) : Prop := ∀ c ∈ p, isSep c = false

/-- A list consisting only of separator characters. -/
def allSep (a : List Char) : Prop := ∀ c ∈ a, isSep c = true

/-- A list ending in a separator character. -/
def EndsSep (a : List Char) : Prop := ∃ z c, a = z ++ [c] ∧ isSep c = true

/-- A list starting with a separator character. -/
def StartsSep (a : List Char) : Prop := ∃ c z, a = c :: z ∧ isSep c = true

theorem endsSep_appL {a : List Char} (w : List Char) (h : EndsSep a) :
    EndsSep (w ++ a) := by
  obtain ⟨z, c, rfl, hc⟩ := h
  exact ⟨w ++ z, c, by simp, hc⟩

theorem startsSep_appR {a : List Char} (w : List Char) (h : StartsSep a) :
    StartsSep (a ++ w) := by
  obtain ⟨c, z, rfl, hc⟩ := h
  exact ⟨c, z ++ w, by simp, hc⟩

theorem endsSep_spaces_snoc (z : List Char) (d : Nat) :
    EndsSep (z ++ [' '] ++ spaces d) := by
  cases d with
  | zero => exact ⟨z, ' ', by simp [spaces], by decide⟩
  | succ d' =>
    refine ⟨z ++ [' '] ++ spaces d', ' ', ?_, by decide⟩
    simp only [spaces]
    rw [List.replicate_succ' d' ' ']
    simp

theorem startsSep_spaces_cons (d : Nat) (z : List Char) :
    StartsSep (spaces d ++ (' ' :: z)) := by
  cases d with
  | zero => exact ⟨' ', z, by simp [spaces], by decide⟩
  | succ d' =>
    exact ⟨' ', spaces d' ++ (' ' :: z), by simp [spaces, List.replicate_succ], by decide⟩

/-- An occurrence of a separator-free pattern cannot span an append
boundary whose left side ends in a separator. -/
theorem subElimL {p a b : List Char} (hp : sepFree p) (ha : EndsSep a)
    (h : SubL p (a ++ b)) : SubL p a ∨ SubL p b := by
  rcases subSplit h with h1 | h2 | ⟨p₁, p₂, hpeq, hp1, _, ⟨x, hx⟩, _⟩
  · exact .inl h1
  · exact .inr h2
  · exfalso
    obtain ⟨z, c, hzc, hc⟩ := ha
    rcases List.eq_nil_or_concat p₁ with rfl | ⟨p₁', d, rfl⟩
    · exact hp1 rfl
    · simp only [List.concat_eq_append] at hpeq hx
      have hd : d = c := by
        have h1 : (x ++ (p₁' ++ [d])).getLast? = some d := by simp
        rw [← hx, hzc] at h1
        have h2 : c = d := by simpa using h1
        exact h2.symm
      have hdp : d ∈ p := by
        rw [hpeq]
        simp
      have := hp d hdp
      rw [hd, hc] at this
      exact absurd this (by simp)

/-- An occurrence of a separator-free pattern cannot span an append
boundary whose right side starts with a separator. -/
theorem subElimR {p a b : List Char} (hp : sepFree p) (hb : StartsSep b)
    (h : SubL p (a ++ b)) : SubL p a ∨ SubL p b := by
  rcases subSplit h with h1 | h2 | ⟨p₁, p₂, hpeq, _, hp2, _, ⟨y, hy⟩⟩
  · exact .inl h1
  · exact .inr h2
  · exfalso
    obtain ⟨c, z, hcz, hc⟩ := hb
    cases p₂ with
    | nil => exact hp2 rfl
    | cons e p₂' =>
      have he : e = c := by
        rw [hcz] at hy
        injection hy with h1 h2
        exact h1.symm
      have hep : e ∈ p := by
        rw [hpeq]; simp
      have := hp e hep
      rw [he, hc] at this
      exact absurd this (by simp)

/-- A separator-free nonempty pattern never occurs inside an all-separator
list. -/
theorem notSub_allSep {p a : List Char} (ha : allSep a) (hp : sepFree p)
    (hne : p ≠ []) : ¬ SubL p a := by
  intro h
  cases p with
  | nil => exact hne rfl
  | cons c p' =>
    have hca : c ∈ a := subL_mem h (by simp)
    have h1 := ha c hca
    have h2 := hp c (by simp)
    rw [h1] at h2
    exact absurd h2 (by simp)

/-- Stripping an all-separator left part off an occurrence. -/
theorem subStripL {p a b : List Char} (ha : allSep a) (hp : sepFree p)
    (hne : p ≠ []) (h : SubL p (a ++ b)) : SubL p b := by
  rcases subSplit h with h1 | h2 | ⟨p₁, p₂, hpeq, hp1, _, ⟨x, hx⟩, _⟩
  · exact absurd h1 (notSub_allSep ha hp hne)
  · exact h2
  · exfalso
    cases p₁ with
    | nil => exact hp1 rfl
    | cons c p₁' =>
      have hca : c ∈ a := by rw [hx]; simp
      have h1 := ha c hca
      have h2 := hp c (by rw [hpeq]; simp)
      rw [h1] at h2
      exact absurd h2 (by simp)

/-- Stripping an all-separator right part off an occurrence. -/
theorem subStripR {p a b : List Char} (hb : allSep b) (hp : sepFree p)
    (hne : p ≠ []) (h : SubL p (a ++ b)) : SubL p a := by
  rcases subSplit h with h1 | h2 | ⟨p₁, p₂, hpeq, _, hp2, _, ⟨y, hy⟩⟩
  · exact h1
  · exact absurd h2 (notSub_allSep hb hp hne)
  · exfalso
    cases p₂ with
    | nil => exact hp2 rfl
    | cons c p₂' =>
      have hca : c ∈ b := by rw [hy]; simp
      have h1 := hb c hca
      have h2 := hp c (by rw [hpeq]; simp)
      rw [h1] at h2
      exact absurd h2 (by simp)

/-- Stripping a single separator character off the front. -/
theorem subStripCons {p : List Char} {c : Char} {l : List Char} (hc : isSep c = true)
    (hp : sepFree p) (hne : p ≠ []) (h : SubL p (c :: l)) : SubL p l :=
  subStripL (a := [c]) (by intro x hx; simp at hx; rwa [hx]) hp hne (by simpa using h)

theorem allSep_spaces (d : Nat) : allSep (spaces d) := by
  intro c hc
  simp [spaces] at hc
  rw [hc.2]
  decide

/-- A list ending in the given character. -/
def EndsWith (w : Char) (s : List Char) : Prop := ∃ z, s = z ++ [w]

theorem joinSep_nl_sub {p : List Char} (hp : sepFree p) (hne : p ≠ []) :
    ∀ xs, SubL p (joinSep ['\n'] xs) → ∃ x ∈ xs, SubL p x := by
  intro xs
  induction xs with
  | nil =>
    intro h
    obtain ⟨a, b, hab⟩ := h
    cases a <;> cases p <;> simp_all [joinSep]
  | cons x xs ih =>
    intro h
    cases xs with
    | nil => exact ⟨x, by simp, by simpa [joinSep] using h⟩
    | cons y ys =>
      have hjoin : joinSep ['\n'] (x :: y :: ys) = x ++ (['\n'] ++ joinSep ['\n'] (y :: ys)) := by
        simp [joinSep]
      rw [hjoin] at h
      rcases subElimR hp ⟨'\n', joinSep ['\n'] (y :: ys), rfl, by decide⟩ h with h1 | h2
      · exact ⟨x, by simp, h1⟩
      · have h3 : SubL p (joinSep ['\n'] (y :: ys)) :=
          subStripCons (by decide) hp hne h2
        obtain ⟨z, hz, hsz⟩ := ih h3
        exact ⟨z, List.mem_cons_of_mem x hz, hsz⟩

theorem joinSep_nl_mem {x : List Char} :
    ∀ {xs}, x ∈ xs → ∃ A B, joinSep ['\n'] xs = A ++ x ++ B ∧
      (A = [] ∨ EndsSep A) ∧ (B = [] ∨ StartsSep B) := by
  intro xs
  induction xs with
  | nil => intro h; simp at h
  | cons x0 xs ih =>
    intro h
    cases xs with
    | nil =>
      simp at h
      subst h
      exact ⟨[], [], by simp [joinSep], .inl rfl, .inl rfl⟩
    | cons y ys =>
      have hjoin : joinSep ['\n'] (x0 :: y :: ys) = x0 ++ ['\n'] ++ joinSep ['\n'] (y :: ys) := by
        simp [joinSep]
      rcases List.mem_cons.mp h with rfl | hmem
      · exact ⟨[], ['\n'] ++ joinSep ['\n'] (y :: ys), by simp [hjoin], .inl rfl,
          .inr ⟨'\n', joinSep ['\n'] (y :: ys), rfl, by decide⟩⟩
      · obtain ⟨A, B, hAB, hA, hB⟩ := ih hmem
        refine ⟨x0 ++ ['\n'] ++ A, B, ?_, .inr ?_, hB⟩
        · rw [hjoin, hAB]; simp
        · rcases hA with rfl | hA
          · exact ⟨x0, '\n', by simp, by decide⟩
          · exact endsSep_appL _ hA

theorem flatten_sub {p : List Char} (hp : sepFree p) (hne : p ≠ []) :
    ∀ parts : List (List Char), (∀ part ∈ parts, EndsSep part) →
      SubL p parts.flatten → ∃ part ∈ parts, SubL p part := by
  intro parts
  induction parts with
  | nil =>
    intro _ h
    obtain ⟨a, b, hab⟩ := h
    cases a <;> cases p <;> simp_all
  | cons part rest ih =>
    intro hparts h
    rw [List.flatten_cons] at h
    rcases subElimL hp (hparts part (by simp)) h with h1 | h2
    · exact ⟨part, by simp, h1⟩
    · obtain ⟨z, hz, hsz⟩ := ih (fun u hu => hparts u (by simp [hu])) h2
      exact ⟨z, by simp [hz], hsz⟩

theorem pyReplace_nil (p q : List Char) : pyReplace p q [] = [] := rfl

theorem pyReplace_cons_pos {p : List Char} (q : List Char) {c : Char} {cs : List Char}
    (h : p ≠ []) (hpre : preB p (c :: cs) = true) :
    pyReplace p q (c :: cs) = q ++ pyReplace p q ((c :: cs).drop p.length) := by
  have hp1 : 1 ≤ p.length := by
    cases p with
    | nil => exact absurd rfl h
    | cons a as => simp
  show pyReplaceF p q (cs.length + 1) (c :: cs) = _
  have e1 : pyReplaceF p q (cs.length + 1) (c :: cs) =
      (if p ≠ [] ∧ preB p (c :: cs) = true then
        q ++ pyReplaceF p q cs.length ((c :: cs).drop p.length)
      else c :: pyReplaceF p q cs.length cs) := rfl
  rw [e1, if_pos ⟨h, hpre⟩]
  congr 1
  show pyReplaceF p q cs.length ((c :: cs).drop p.length) =
    pyReplaceF p q ((c :: cs).drop p.length).length ((c :: cs).drop p.length)
  apply pyReplaceF_fuel2 p q cs.length
  · simp [List.length_drop]
    omega
  · simp [List.length_drop]
    omega
  · exact le_rfl

theorem pyReplace_cons_neg {p : List Char} (q : List Char) {c : Char} {cs : List Char}
    (h : ¬(p ≠ [] ∧ preB p (c :: cs) = true)) :
    pyReplace p q (c :: cs) = c :: pyReplace p q cs := by
  show pyReplaceF p q (cs.length + 1) (c :: cs) = _
  have e1 : pyReplaceF p q (cs.length + 1) (c :: cs) =
      (if p ≠ [] ∧ preB p (c :: cs) = true then
        q ++ pyReplaceF p q cs.length ((c :: cs).drop p.length)
      else c :: pyReplaceF p q cs.length cs) := rfl
  rw [e1, if_neg h]
  rfl

/-- Replacement is the identity when the pattern does not occur. -/
theorem replace_id {p q s : List Char} (hno : ¬ SubL p s) : pyReplace p q s = s := by
  induction s with
  | nil => exact pyReplace_nil p q
  | cons c cs ih =>
    have hpre : ¬ (p ≠ [] ∧ preB p (c :: cs) = true) := by
      rintro ⟨hne, hp⟩
      obtain ⟨t, ht⟩ := preB_iff.mp hp
      exact hno ⟨[], t, by simpa using ht⟩
    rw [pyReplace_cons_neg q hpre, ih (fun h => hno (subL_cons c h))]

/-- Replacement with a separator-free pattern on a singleton separator. -/
theorem replace_singleton {p q : List Char} (hne : p ≠ []) (hp : sepFree p)
    {w : Char} (hw : isSep w = true) : pyReplace p q [w] = [w] := by
  apply replace_id
  rintro ⟨a, b, hab⟩
  cases p with
  | nil => exact hne rfl
  | cons e p' =>
    cases a with
    | nil =>
      injection hab with h1 h2
      have := hp e (by simp)
      rw [← h1, hw] at this
      exact absurd this (by simp)
    | cons x a' =>
      injection hab with _ h2
      have h3 : a' ++ (e :: p') ++ b = [] := h2.symm
      simp at h3

/-- Replacement with a separator-free pattern preserves a trailing
separator character. -/
theorem replace_snocN {p q : List Char} (hne : p ≠ []) (hp : sepFree p)
    {w : Char} (hw : isSep w = true) :
    ∀ n s, s.length ≤ n → ∃ z, pyReplace p q (s ++ [w]) = z ++ [w] := by
  intro n
  induction n with
  | zero =>
    intro s hs
    rw [List.length_eq_zero.mp (Nat.le_zero.mp hs)]
    exact ⟨[], by simpa using replace_singleton hne hp hw⟩
  | succ n ih =>
    intro s hs
    cases s with
    | nil => exact ⟨[], by simpa using replace_singleton hne hp hw⟩
    | cons d s' =>
      by_cases htest : preB p (d :: s' ++ [w]) = true
      · have hsplit : ∃ u, d :: s' = p ++ u := by
          obtain ⟨t, ht⟩ := preB_iff.mp htest
          rcases preSplit (a := d :: s') (b := [w]) (by simpa using ht) with h1 | ⟨p₂, y, hp2, hwy⟩
          · exact h1
          · cases p₂ with
            | nil => exact ⟨[], by simpa using hp2.symm⟩
            | cons e p₂' =>
              exfalso
              injection hwy with h1 _
              have := hp e (by simp [hp2])
              rw [← h1, hw] at this
              exact absurd this (by simp)
        obtain ⟨u, hu⟩ := hsplit
        have hcons : (d :: s') ++ [w] = p ++ (u ++ [w]) := by rw [hu]; simp
        have hdrop : ((d :: s') ++ [w]).drop p.length = u ++ [w] := by
          rw [hcons]; exact List.drop_left p (u ++ [w])
        have hlen : u.length ≤ n := by
          have h1 : (d :: s').length = p.length + u.length := by rw [hu]; simp
          have h2 : 1 ≤ p.length := by
            cases p with
            | nil => exact absurd rfl hne
            | cons _ _ => simp
          simp at h1 hs
          omega
        obtain ⟨z, hz⟩ := ih u hlen
        refine ⟨q ++ z, ?_⟩
        have := pyReplace_cons_pos (p := p) q hne (by simpa using htest)
        simp only [List.cons_append] at this hdrop ⊢
        rw [this, hdrop, hz]
        simp
      · have hneg : ¬ (p ≠ [] ∧ preB p (d :: (s' ++ [w])) = true) := by
          rintro ⟨_, hpp⟩
          exact htest (by simpa using hpp)
        obtain ⟨z, hz⟩ := ih s' (by simp at hs; omega)
        refine ⟨d :: z, ?_⟩
        simp only [List.cons_append]
        rw [pyReplace_cons_neg q hneg, hz]

theorem replace_snoc {p q : List Char} (hne : p ≠ []) (hp : sepFree p)
    {w : Char} (hw : isSep w = true) (s : List Char) :
    ∃ z, pyReplace p q (s ++ [w]) = z ++ [w] :=
  replace_snocN hne hp hw s.length s le_rfl

/-- Replacement with a separator-free pattern walks past a leading
separator character. -/
theorem replace_cons_sep {p q : List Char} (hne : p ≠ []) (hp : sepFree p)
    {c : Char} (hc : isSep c = true) (l : List Char) :
    pyReplace p q (c :: l) = c :: pyReplace p q l := by
  apply pyReplace_cons_neg
  rintro ⟨_, hpre⟩
  obtain ⟨t, ht⟩ := preB_iff.mp hpre
  cases p with
  | nil => exact hne rfl
  | cons e p' =>
    injection ht with h1 _
    have := hp e (by simp)
    rw [← h1, hc] at this
    exact absurd this (by simp)

/-- Replacement distributes over an append whose left side ends in a
separator (no occurrence of a separator-free pattern can span the
boundary). -/
theorem replace_distribN {p q : List Char} (hne : p ≠ []) (hp : sepFree p) :
    ∀ n A B, A.length ≤ n → (A = [] ∨ EndsSep A) →
      pyReplace p q (A ++ B) = pyReplace p q A ++ pyReplace p q B := by
  intro n
  induction n with
  | zero =>
    intro A B hA _
    rw [List.length_eq_zero.mp (Nat.le_zero.mp hA)]
    simp [pyReplace_nil]
  | succ n ih =>
    intro A B hlen hA
    rcases hA with rfl | hA
    · simp [pyReplace_nil]
    cases A with
    | nil => simp [pyReplace_nil]
    | cons a A' =>
      by_cases htest : preB p ((a :: A') ++ B) = true
      · have hsplit : ∃ u, a :: A' = p ++ u := by
          obtain ⟨t, ht⟩ := preB_iff.mp htest
          rcases preSplit (a := a :: A') (b := B) ht with h1 | ⟨p₂, y, hp2, hwy⟩
          · exact h1
          · cases p₂ with
            | nil => exact ⟨[], by simpa using hp2.symm⟩
            | cons e p₂' =>
              exfalso
              obtain ⟨z, c, hzc, hc⟩ := hA
              have hc_in : c ∈ p := by
                rw [hp2, hzc]; simp
              have := hp c hc_in
              rw [hc] at this
              exact absurd this (by simp)
        obtain ⟨u, hu⟩ := hsplit
        have hu_ends : u = [] ∨ EndsSep u := by
          cases u with
          | nil => exact .inl rfl
          | cons u0 u' =>
            refine .inr ?_
            obtain ⟨z, c, hzc, hc⟩ := hA
            rcases List.eq_nil_or_concat (u0 :: u') with habs | ⟨u'', d, hu''⟩
            · simp at habs
            · simp only [List.concat_eq_append] at hu''
              have hd : d = c := by
                have h1 : (p ++ (u'' ++ [d])).getLast? = some d := by simp
                rw [← hu''] at h1
                rw [← hu, hzc] at h1
                have h2 : c = d := by simpa using h1
                exact h2.symm
              exact ⟨u'', d, hu'', by rw [hd]; exact hc⟩
        have hu_ne : u ≠ [] := by
          rintro rfl
          obtain ⟨z, c, hzc, hc⟩ := hA
          have hc_in : c ∈ p := by
            rw [← List.append_nil p, ← hu, hzc]; simp
          have := hp c hc_in
          rw [hc] at this
          exact absurd this (by simp)
        have hplen : 1 ≤ p.length := by
          cases p with
          | nil => exact absurd rfl hne
          | cons _ _ => simp
        have hulen : u.length ≤ n := by
          have h1 : (a :: A').length = p.length + u.length := by rw [hu]; simp
          simp at h1 hlen
          omega
        have hpreA : preB p (a :: A') = true := preB_iff.mpr ⟨u, hu⟩
        have hAB : (a :: A') ++ B = p ++ (u ++ B) := by rw [hu]; simp
        have e1 : pyReplace p q ((a :: A') ++ B) =
            q ++ pyReplace p q (u ++ B) := by
          have hpre2 : preB p (a :: (A' ++ B)) = true := by simpa using htest
          have := pyReplace_cons_pos (p := p) q hne hpre2
          simp only [List.cons_append] at this ⊢
          rw [this]
          congr 1
          congr 1
          have : (a :: (A' ++ B)) = p ++ (u ++ B) := by simpa using hAB
          rw [this, List.drop_left]
        have e2 : pyReplace p q (a :: A') = q ++ pyReplace p q u := by
          have := pyReplace_cons_pos (p := p) q hne hpreA
          rw [this]
          congr 1
          rw [hu, List.drop_left]
        rw [e1, e2, ih u B hulen hu_ends]
        simp
      · have hneg : ¬ (p ≠ [] ∧ preB p (a :: (A' ++ B)) = true) := by
          rintro ⟨_, hpp⟩
          exact htest (by simpa using hpp)
        have hnegA : ¬ (p ≠ [] ∧ preB p (a :: A') = true) := by
          rintro ⟨_, hpp⟩
          obtain ⟨t, ht⟩ := preB_iff.mp hpp
          exact htest (preB_iff.mpr ⟨t ++ B, by rw [ht]; simp⟩)
        have hA' : A' = [] ∨ EndsSep A' := by
          cases A' with
          | nil => exact .inl rfl
          | cons b0 A'' =>
            refine .inr ?_
            obtain ⟨z, c, hzc, hc⟩ := hA
            cases z with
            | nil =>
              exfalso
              injection hzc with _ h2
              simp at h2
            | cons z0 z' =>
              injection hzc with _ h2
              exact ⟨z', c, h2, hc⟩
        have e3 : pyReplace p q ((a :: A') ++ B) = a :: pyReplace p q (A' ++ B) := by
          simpa using pyReplace_cons_neg (p := p) q hneg
        have e4 : pyReplace p q (a :: A') = a :: pyReplace p q A' := pyReplace_cons_neg q hnegA
        rw [e3, e4, ih A' B (by simp at hlen; omega) hA']
        simp

theorem replace_distrib {p q : List Char} (hne : p ≠ []) (hp : sepFree p)
    {A : List Char} (B : List Char) (hA : A = [] ∨ EndsSep A) :
    pyReplace p q (A ++ B) = pyReplace p q A ++ pyReplace p q B :=
  replace_distribN hne hp A.length A B le_rfl hA

/-- Replacement walks past a pattern-free segment followed by a
separator-headed rest. -/
theorem replace_mid {p q : List Char} (hne : p ≠ []) (hp : sepFree p)
    {Y : List Char} (hY : StartsSep Y) :
    ∀ c, ¬ SubL p c → pyReplace p q (c ++ Y) = c ++ pyReplace p q Y := by
  intro c
  induction c with
  | nil => simp
  | cons d c' ih =>
    intro hno
    have hneg : ¬ (p ≠ [] ∧ preB p (d :: (c' ++ Y)) = true) := by
      rintro ⟨_, hpre⟩
      obtain ⟨t, ht⟩ := preB_iff.mp hpre
      rcases preSplit (a := d :: c') (b := Y) (by simpa using ht) with ⟨u, hu⟩ | ⟨p₂, y, hp2, hwy⟩
      · exact hno ⟨[], u, by simpa using hu⟩
      · cases p₂ with
        | nil =>
          simp only [List.append_nil] at hp2
          exact hno (by rw [hp2]; exact subL_self _)
        | cons e p₂' =>
          obtain ⟨w, z, hwz, hw⟩ := hY
          rw [hwz] at hwy
          injection hwy with h1 _
          have := hp e (by rw [hp2]; simp)
          rw [← h1, hw] at this
          exact absurd this (by simp)
    have hno' : ¬ SubL p c' := fun h => hno (subL_cons d h)
    calc pyReplace p q ((d :: c') ++ Y) = d :: pyReplace p q (c' ++ Y) := by
          simpa using pyReplace_cons_neg (p := p) q hneg
      _ = d :: (c' ++ pyReplace p q Y) := by rw [ih hno']
      _ = (d :: c') ++ pyReplace p q Y := rfl

/-- A cell occurrence padded by separators on both sides. -/
def PadOcc (c s : List Char) : Prop :=
  ∃ X Y, s = X ++ c ++ Y ∧ EndsSep X ∧ StartsSep Y

theorem padOcc_sub {c s : List Char} (h : PadOcc c s) : SubL c s := by
  obtain ⟨X, Y, rfl, _, _⟩ := h
  exact ⟨X, Y, rfl⟩

/-- A padded occurrence of a pattern-free cell survives one
replacement. -/
theorem padOcc_replace {p q c s : List Char} (hne : p ≠ []) (hp : sepFree p)
    (hno : ¬ SubL p c) (h : PadOcc c s) : PadOcc c (pyReplace p q s) := by
  obtain ⟨X, Y, rfl, hX, hY⟩ := h
  have e1 : pyReplace p q (X ++ c ++ Y) = pyReplace p q X ++ pyReplace p q (c ++ Y) := by
    rw [List.append_assoc]
    exact replace_distrib hne hp (c ++ Y) (.inr hX)
  rw [e1, replace_mid hne hp hY c hno]
  refine ⟨pyReplace p q X, pyReplace p q Y, by simp, ?_, ?_⟩
  · obtain ⟨z, w, rfl, hw⟩ := hX
    obtain ⟨z', hz'⟩ := replace_snoc hne hp hw z
    exact ⟨z', w, hz', hw⟩
  · obtain ⟨w, z, rfl, hw⟩ := hY
    rw [replace_cons_sep hne hp hw]
    exact ⟨w, pyReplace p q z, rfl, hw⟩

/-- A padded occurrence of a cell free of all the chain's patterns
survives the whole replacement chain. -/
theorem padOcc_chain {c : List Char} :
    ∀ (ps : List (String × String)) (s : String),
      (∀ pq ∈ ps, pq.1.data ≠ [] ∧ sepFree pq.1.data ∧ ¬ SubL pq.1.data c) →
      PadOcc c s.data → PadOcc c (replaceChain ps s).data := by
  intro ps
  induction ps with
  | nil => intro s _ h; exact h
  | cons pq ps' ih =>
    intro s hps h
    have h1 := hps pq (by simp)
    have h2 : PadOcc c (strReplace s pq.1 pq.2).data :=
      padOcc_replace h1.1 h1.2.1 h1.2.2 h
    exact ih _ (fun r hr => hps r (by simp [hr])) h2

/-- The replacement chain is the identity when no pattern occurs. -/
theorem chain_id : ∀ (ps : List (String × String)) (s : String),
    (∀ pq ∈ ps, ¬ SubL pq.1.data s.data) → replaceChain ps s = s := by
  intro ps
  induction ps with
  | nil => intro s _; rfl
  | cons pq ps' ih =>
    intro s hps
    have h1 : strReplace s pq.1 pq.2 = s := by
      show (⟨pyReplace pq.1.data pq.2.data s.data⟩ : String) = s
      rw [replace_id (hps pq (by simp))]
    show replaceChain ps' (strReplace s pq.1 pq.2) = s
    rw [h1]
    exact ih s (fun r hr => hps r (by simp [hr]))

/-- The replacement chain preserves a trailing separator character. -/
theorem chain_snoc {w : Char} (hw : isSep w = true) :
    ∀ (ps : List (String × String)) (s : String),
      (∀ pq ∈ ps, pq.1.data ≠ [] ∧ sepFree pq.1.data) →
      EndsWith w s.data → EndsWith w (replaceChain ps s).data := by
  intro ps
  induction ps with
  | nil => intro s _ h; exact h
  | cons pq ps' ih =>
    intro s hps h
    obtain ⟨z, hz⟩ := h
    have h1 := hps pq (by simp)
    have h2 : EndsWith w (strReplace s pq.1 pq.2).data := by
      show EndsWith w (pyReplace pq.1.data pq.2.data s.data)
      rw [hz]
      exact replace_snoc h1.1 h1.2 hw z
    exact ih _ (fun r hr => hps r (by simp [hr])) h2

theorem subL_nil_elim {p : List Char} (h : SubL p []) : p = [] := by
  obtain ⟨a, b, hab⟩ := h
  cases a <;> cases p <;> simp_all

theorem allSep_space : allSep [' '] := by
  intro c hc
  simp at hc
  rw [hc]
  decide

theorem endsWith_appL {w : Char} {a : List Char} (x : List Char) (h : EndsWith w a) :
    EndsWith w (x ++ a) := by
  obtain ⟨z, rfl⟩ := h
  exact ⟨x ++ z, by simp⟩

theorem endsSep_of_space {s : List Char} (h : EndsWith ' ' s) : EndsSep s := by
  obtain ⟨z, rfl⟩ := h
  exact ⟨z, ' ', rfl, by decide⟩

theorem renderCell_endsWith (a : Align) (w : Nat) (s : String) :
    EndsWith ' ' (renderCell a w s) :=
  ⟨' ' :: justify a w s, by simp [renderCell]⟩

/-- A cell of a row occurs in the rendered row flanked by separator
characters. -/
theorem cellPadRow :
    ∀ (row : List String) (aws : List (Align × Nat)) (cell : String),
      cell ∈ row → row.length ≤ aws.length →
      ∃ X Y, renderRowL aws row = X ++ cell.data ++ Y ∧ EndsSep X ∧ StartsSep Y := by
  intro row
  induction row with
  | nil => intro aws cell h; simp at h
  | cons c0 rest ih =>
    intro aws cell hmem hlen
    cases aws with
    | nil => simp at hlen
    | cons aw aws' =>
      have hrow : renderRowL (aw :: aws') (c0 :: rest) =
          renderCell aw.1 aw.2 c0 ++ renderRowL aws' rest := by
        simp [renderRowL]
      rcases List.mem_cons.mp hmem with rfl | hmem'
      · rcases haw : aw.1 with _ | _ | _
        · refine ⟨[' '], spaces (aw.2 - cell.length) ++ (' ' :: renderRowL aws' rest), ?_,
            ⟨[], ' ', rfl, by decide⟩,
            startsSep_spaces_cons _ _⟩
          rw [hrow]
          simp [renderCell, justify, haw]
        · refine ⟨' ' :: spaces (aw.2 - cell.length), ' ' :: renderRowL aws' rest, ?_,
            ?_, ⟨' ', renderRowL aws' rest, rfl, by decide⟩⟩
          · rw [hrow]
            simp [renderCell, justify, haw]
          · have := endsSep_spaces_snoc [] (aw.2 - cell.length)
            simpa using this
        · refine ⟨' ' :: spaces ((aw.2 - cell.length) / 2),
            spaces ((aw.2 - cell.length) - (aw.2 - cell.length) / 2) ++
              (' ' :: renderRowL aws' rest), ?_, ?_, startsSep_spaces_cons _ _⟩
          · rw [hrow]
            simp [renderCell, justify, haw]
          · have := endsSep_spaces_snoc [] ((aw.2 - cell.length) / 2)
            simpa using this
      · obtain ⟨X, Y, hXY, hX, hY⟩ := ih aws' cell hmem' (by simp at hlen; omega)
        refine ⟨renderCell aw.1 aw.2 c0 ++ X, Y, ?_, endsSep_appL _ hX, hY⟩
        rw [hrow, hXY]
        simp

/-- An occurrence of a separator-free pattern in a rendered row lies
inside one of its cells. -/
theorem rowCells {p : List Char} (hp : sepFree p) (hne : p ≠ []) :
    ∀ (row : List String) (aws : List (Align × Nat)),
      SubL p (renderRowL aws row) → ∃ cell ∈ row, SubL p cell.data := by
  intro row
  induction row with
  | nil =>
    intro aws h
    rw [renderRowL] at h
    simp at h
    exact absurd (subL_nil_elim h) hne
  | cons c0 rest ih =>
    intro aws h
    cases aws with
    | nil =>
      rw [renderRowL] at h
      simp at h
      exact absurd (subL_nil_elim h) hne
    | cons aw aws' =>
      have hrow : renderRowL (aw :: aws') (c0 :: rest) =
          renderCell aw.1 aw.2 c0 ++ renderRowL aws' rest := by
        simp [renderRowL]
      rw [hrow] at h
      rcases subElimL hp (endsSep_of_space (renderCell_endsWith _ _ _)) h with h1 | h2
      · refine ⟨c0, by simp, ?_⟩
        have h2 : SubL p (justify aw.1 aw.2 c0 ++ [' ']) :=
          subStripCons (c := ' ') (by decide) hp hne (by simpa [renderCell] using h1)
        have h3 : SubL p (justify aw.1 aw.2 c0) :=
          subStripR allSep_space hp hne h2
        rcases haw : aw.1 with _ | _ | _ <;> rw [haw] at h3
        · exact subStripR (allSep_spaces _) hp hne (by simpa [justify] using h3)
        · exact subStripL (allSep_spaces _) hp hne (by simpa [justify] using h3)
        · have h4 := subStripL (allSep_spaces _) hp hne
            (by simpa [justify, List.append_assoc] using h3)
          exact subStripR (allSep_spaces _) hp hne h4
      · obtain ⟨cell, hcell, hsub⟩ := ih aws' h2
        exact ⟨cell, by simp [hcell], hsub⟩

theorem colWidths_len {n : Nat} :
    ∀ (rows : List (List String)) (init : List Nat), init.length = n →
      (∀ r ∈ rows, r.length = n) → (colWidths init rows).length = n := by
  intro rows
  induction rows with
  | nil => intro init h _; simpa [colWidths] using h
  | cons r rows' ih =>
    intro init hinit hrows
    have h1 : (List.zipWith max init (r.map String.length)).length = n := by
      simp [hinit, hrows r (by simp)]
    have h2 : colWidths init (r :: rows') =
        colWidths (List.zipWith max init (r.map String.length)) rows' := by
      simp [colWidths]
    rw [h2]
    exact ih _ h1 (fun r' hr' => hrows r' (by simp [hr']))

/-- Every cell of a headerless table occurs in the rendered table
flanked by separator characters. -/
theorem padOcc_renderTable {n : Nat} {aligns : List Align} {rows : List (List String)}
    {row : List String} {cell : String} (hrow : row ∈ rows) (hcell : cell ∈ row)
    (hn : ∀ r ∈ rows, r.length = n) (ha : aligns.length = n) :
    PadOcc cell.data (renderTableL n aligns rows) := by
  have hws : (colWidths (List.replicate n 0) rows).length = n :=
    colWidths_len rows _ (by simp) hn
  have hlen : row.length ≤ (aligns.zip (colWidths (List.replicate n 0) rows)).length := by
    simp [hws, ha, hn row hrow]
  obtain ⟨X, Y, hXY, hX, hY⟩ := cellPadRow row _ cell hcell hlen
  have hline : renderRowL (aligns.zip (colWidths (List.replicate n 0) rows)) row ∈
      rows.map (renderRowL (aligns.zip (colWidths (List.replicate n 0) rows))) :=
    List.mem_map_of_mem _ hrow
  obtain ⟨A, B, hAB, hA, hB⟩ := joinSep_nl_mem hline
  refine ⟨A ++ X, Y ++ B, ?_, ?_, startsSep_appR _ hY⟩
  · show renderTableL n aligns rows = A ++ X ++ cell.data ++ (Y ++ B)
    rw [renderTableL]
    rw [hAB, hXY]
    simp
  · rcases hA with rfl | hA
    · simpa using hX
    · exact endsSep_appL _ hX

/-- An occurrence of a separator-free pattern in a rendered headerless
table lies inside one of its cells. -/
theorem tableCells {p : List Char} (hp : sepFree p) (hne : p ≠ [])
    {n : Nat} {aligns : List Align} {rows : List (List String)}
    (h : SubL p (renderTableL n aligns rows)) :
    ∃ row ∈ rows, ∃ cell ∈ row, SubL p cell.data := by
  rw [renderTableL] at h
  obtain ⟨line, hline, hsub⟩ := joinSep_nl_sub hp hne _ h
  obtain ⟨row, hrow, rfl⟩ := List.mem_map.mp hline
  obtain ⟨cell, hcell, hc⟩ := rowCells hp hne row _ hsub
  exact ⟨row, hrow, cell, hcell, hc⟩

theorem renderRow_endsWith :
    ∀ (row : List String) (aws : List (Align × Nat)), row ≠ [] → aws ≠ [] →
      EndsWith ' ' (renderRowL aws row) := by
  intro row
  induction row with
  | nil => intro aws h _; exact absurd rfl h
  | cons c0 rest ih =>
    intro aws _ haws
    cases aws with
    | nil => exact absurd rfl haws
    | cons aw aws' =>
      have hrow : renderRowL (aw :: aws') (c0 :: rest) =
          renderCell aw.1 aw.2 c0 ++ renderRowL aws' rest := by
        simp [renderRowL]
      rw [hrow]
      rcases hrest : renderRowL aws' rest with _ | ⟨x, xs⟩
      · simpa using renderCell_endsWith aw.1 aw.2 c0
      · rcases rest with _ | ⟨r1, rest'⟩
        · rw [renderRowL] at hrest
          simp at hrest
        · rcases aws' with _ | ⟨aw1, aws''⟩
          · rw [renderRowL] at hrest
            simp at hrest
          · rw [← hrest]
            exact endsWith_appL _ (ih _ (by simp) (by simp))

theorem joinSep_endsWith {w : Char} :
    ∀ xs : List (List Char), xs ≠ [] → (∀ x ∈ xs, EndsWith w x) →
      EndsWith w (joinSep ['\n'] xs) := by
  intro xs
  induction xs with
  | nil => intro h _; exact absurd rfl h
  | cons x xs' ih =>
    intro _ hall
    cases xs' with
    | nil => simpa [joinSep] using hall x (by simp)
    | cons y ys =>
      have hjoin : joinSep ['\n'] (x :: y :: ys) = x ++ ['\n'] ++ joinSep ['\n'] (y :: ys) := by
        simp [joinSep]
      rw [hjoin, List.append_assoc]
      exact endsWith_appL _ (endsWith_appL _ (ih (by simp) (fun z hz => hall z (by simp [hz]))))

/-- A rendered table of at least one (nonempty) row ends with a space. -/
theorem renderTable_endsWith {n : Nat} {aligns : List Align} {rows : List (List String)}
    (hrows : rows ≠ []) (hn : ∀ r ∈ rows, r.length = n) (ha : aligns.length = n)
    (hpos : 0 < n) : EndsWith ' ' (renderTableL n aligns rows) := by
  rw [renderTableL]
  apply joinSep_endsWith _ (by simpa using hrows)
  intro line hline
  obtain ⟨row, hrow, rfl⟩ := List.mem_map.mp hline
  apply renderRow_endsWith
  · intro habs
    have := hn row hrow
    rw [habs] at this
    simp at this
    omega
  · have hws : (colWidths (List.replicate n 0) rows).length = n :=
      colWidths_len rows _ (by simp) hn
    intro habs
    have : (aligns.zip (colWidths (List.replicate n 0) rows)).length = 0 := by
      rw [habs]; rfl
    rw [List.length_zip, hws, ha] at this
    omega

/-! ### Inversion of the monadic extraction chains -/

theorem exBind_ok_iff {α β : Type} {x : Except PyErr α} {f : α → Except PyErr β} {v : β} :
    (x >>= f) = .ok v ↔ ∃ a, x = .ok a ∧ f a = .ok v := by
  cases x with
  | error e =>
    constructor
    · intro h
      rw [show ((Except.error e : Except PyErr α) >>= f) = .error e from rfl] at h
      exact Except.noConfusion h
    · rintro ⟨a, ha, _⟩
      exact Except.noConfusion ha
  | ok a =>
    rw [show ((Except.ok a : Except PyErr α) >>= f) = f a from rfl]
    constructor
    · intro h
      exact ⟨a, rfl, h⟩
    · rintro ⟨a', ha, hf⟩
      injection ha with h1
      rwa [h1]

theorem exPure_ok_iff {β : Type} {a v : β} :
    (pure a : Except PyErr β) = .ok v ↔ a = v := by
  constructor
  · intro h
    injection h
  · intro h
    rw [h]
    rfl

theorem exMap_ok_iff {α β : Type} {x : Except PyErr α} {f : α → β} {v : β} :
    x.map f = .ok v ↔ ∃ a, x = .ok a ∧ v = f a := by
  cases x with
  | error e =>
    constructor
    · intro h
      exact Except.noConfusion h
    · rintro ⟨a, ha, _⟩
      exact Except.noConfusion ha
  | ok a =>
    constructor
    · intro h
      injection h with h1
      exact ⟨a, rfl, h1.symm⟩
    · rintro ⟨a', ha, hf⟩
      injection ha with h1
      rw [hf, h1]
      rfl

theorem pyGetD_ok {j : Json} {k : String} {dflt x : Json} (h : pyGetD j k dflt = .ok x) :
    j.isObj = true ∧ x = objGetD j k dflt := by
  cases j <;> simp_all [pyGetD, objGetD, Json.isObj]

theorem pyGetD_obj {fs : List (String × Json)} {k : String} {dflt : Json} :
    pyGetD (.obj fs) k dflt = .ok (objGetD (.obj fs) k dflt) := rfl

theorem exBind_ok {α β : Type} {x : Except PyErr α} {a : α}
    (f : α → Except PyErr β) (h : x = .ok a) : (x >>= f) = f a := by
  rw [h]
  rfl

theorem voiceKeepM_obj {m : Json} (h : m.isObj = true) :
    voiceKeepM m = .ok (voiceKeep m) := by
  cases m with
  | obj fs =>
    have e1 : voiceKeepM (Json.obj fs) =
        (pyGetD (Json.obj fs) "downloaded" .null >>= fun dflag =>
          if pyTruthy dflag then
            pyGetD (Json.obj fs) "provider" .null >>= fun pr => pure (!(isStrSystem pr))
          else pure false) := rfl
    rw [e1, exBind_ok _ pyGetD_obj]
    by_cases hd : pyTruthy (objGetD (Json.obj fs) "downloaded" Json.null)
    · rw [if_pos hd, exBind_ok _ pyGetD_obj]
      apply exPure_ok_iff.mpr
      simp [voiceKeep, hd]
    · rw [if_neg hd]
      apply exPure_ok_iff.mpr
      simp [voiceKeep, hd]
  | null => simp [Json.isObj] at h
  | bool b => simp [Json.isObj] at h
  | num n => simp [Json.isObj] at h
  | str s => simp [Json.isObj] at h
  | arr l => simp [Json.isObj] at h

theorem filterDownloaded_obj :
    ∀ {xs : List Json}, (∀ x ∈ xs, x.isObj = true) →
      filterDownloaded xs = .ok (xs.filter modelKeep) := by
  intro xs
  induction xs with
  | nil => intro _; rfl
  | cons m ms ih =>
    intro h
    have hm := h m (by simp)
    have hrec := ih (fun x hx => h x (by simp [hx]))
    cases m with
    | obj fs =>
      have e1 : filterDownloaded (Json.obj fs :: ms) =
          (pyGetD (Json.obj fs) "downloaded" .null >>= fun dflag =>
            filterDownloaded ms >>= fun rest =>
            pure (if pyTruthy dflag then Json.obj fs :: rest else rest)) := rfl
      rw [e1, exBind_ok _ pyGetD_obj, exBind_ok _ hrec]
      apply exPure_ok_iff.mpr
      simp [List.filter_cons, modelKeep]
    | null => simp [Json.isObj] at hm
    | bool b => simp [Json.isObj] at hm
    | num n => simp [Json.isObj] at hm
    | str s => simp [Json.isObj] at hm
    | arr l => simp [Json.isObj] at hm

theorem filterVoices_obj :
    ∀ {xs : List Json}, (∀ x ∈ xs, x.isObj = true) →
      filterVoices xs = .ok (xs.filter voiceKeep) := by
  intro xs
  induction xs with
  | nil => intro _; rfl
  | cons m ms ih =>
    intro h
    have hrec := ih (fun x hx => h x (by simp [hx]))
    have e1 : filterVoices (m :: ms) =
        (voiceKeepM m >>= fun keep =>
          filterVoices ms >>= fun rest =>
          pure (if keep then m :: rest else rest)) := rfl
    rw [e1, exBind_ok _ (voiceKeepM_obj (h m (by simp))), exBind_ok _ hrec]
    apply exPure_ok_iff.mpr
    simp [List.filter_cons]

theorem modelRowM_obj {m : Json} (h : m.isObj = true) :
    modelRowM m = .ok (modelRowOf m) := by
  cases m with
  | obj fs =>
    have e1 : modelRowM (Json.obj fs) =
        (pyGetD (Json.obj fs) "path" (.str "N/A") >>= fun p =>
          pyGetD (Json.obj fs) "alias" (.str "") >>= fun aliasV =>
          pyGetD (Json.obj fs) "size_human" (.str "0 B") >>= fun size =>
          pure [pyStr aliasV, pyStr size,
            pyStr (if pyTruthy p then p else Json.str "N/A")]) := rfl
    rw [e1, exBind_ok _ pyGetD_obj, exBind_ok _ pyGetD_obj, exBind_ok _ pyGetD_obj]
    rfl
  | null => simp [Json.isObj] at h
  | bool b => simp [Json.isObj] at h
  | num n => simp [Json.isObj] at h
  | str s => simp [Json.isObj] at h
  | arr l => simp [Json.isObj] at h

theorem voiceRowM_obj {m : Json} (h : m.isObj = true) :
    voiceRowM m = .ok (voiceRowOf m) := by
  cases m with
  | obj fs =>
    have e1 : voiceRowM (Json.obj fs) =
        (pyGetD (Json.obj fs) "path" (.str "N/A") >>= fun p =>
          pyGetD (Json.obj fs) "alias" (.str "") >>= fun aliasV =>
          pyGetD (Json.obj fs) "provider" (.str "") >>= fun prov =>
          pyGetD (Json.obj fs) "size_human" (.str "0 B") >>= fun size =>
          pure [pyStr aliasV, pyStr prov, pyStr size,
            pyStr (if pyTruthy p then p else Json.str "N/A")]) := rfl
    rw [e1, exBind_ok _ pyGetD_obj, exBind_ok _ pyGetD_obj, exBind_ok _ pyGetD_obj,
      exBind_ok _ pyGetD_obj]
    rfl
  | null => simp [Json.isObj] at h
  | bool b => simp [Json.isObj] at h
  | num n => simp [Json.isObj] at h
  | str s => simp [Json.isObj] at h
  | arr l => simp [Json.isObj] at h

theorem mapM_modelRow :
    ∀ {xs : List Json}, (∀ x ∈ xs, x.isObj = true) →
      xs.mapM modelRowM = .ok (xs.map modelRowOf) := by
  intro xs
  induction xs with
  | nil => intro _; rfl
  | cons m ms ih =>
    intro h
    rw [List.mapM_cons, exBind_ok _ (modelRowM_obj (h m (by simp))),
      exBind_ok _ (ih (fun x hx => h x (by simp [hx])))]
    rfl

theorem mapM_voiceRow :
    ∀ {xs : List Json}, (∀ x ∈ xs, x.isObj = true) →
      xs.mapM voiceRowM = .ok (xs.map voiceRowOf) := by
  intro xs
  induction xs with
  | nil => intro _; rfl
  | cons m ms ih =>
    intro h
    rw [List.mapM_cons, exBind_ok _ (voiceRowM_obj (h m (by simp))),
      exBind_ok _ (ih (fun x hx => h x (by simp [hx])))]
    rfl

/-- Success of the storage extraction pins down the report-derived
fields: the input is an object, the model/voice rows arise from the
items lists through iteration, filtering and row building, and the
grand total is the defaulted `totals.grand_total_human`. -/
theorem storageVals_spec {d : Json} {v : StorageVals} (hv : storageVals d = .ok v) :
    d.isObj = true ∧
    (∃ mi ml dm, pyGetD (objGetD d "models" (.obj [])) "items" (.arr []) = .ok mi ∧
      pyIterate mi = .ok ml ∧ filterDownloaded ml = .ok dm ∧
      dm.mapM modelRowM = .ok v.modelRows) ∧
    (∃ vi vl dw, pyGetD (objGetD d "voices" (.obj [])) "items" (.arr []) = .ok vi ∧
      pyIterate vi = .ok vl ∧ filterVoices vl = .ok dw ∧
      dw.mapM voiceRowM = .ok v.voiceRows) ∧
    v.grandTotal = pyStr (objGetD (objGetD d "totals" (.obj [])) "grand_total_human" (.str "0 B")) := by
  simp only [storageVals, exBind_ok_iff, exPure_ok_iff] at hv
  obtain ⟨deps, hdeps, py1, hpy1, pySize, hpySize, py2, hpy2, pyPath, hpyPath,
    sox1, hsox1, soxSize, hsoxSize, sox2, hsox2, soxPath, hsoxPath,
    storage, hstorage, dataDir, hdataDir, hf, hhf, ddSize, hddSize, ddPath, hddPath,
    stt1, hstt1, sttSize, hsttSize, stt2, hstt2, daemon, hdaemon, daemonSize, hdaemonSize,
    stt3, hstt3, sttRec, hsttRec, sttRecSize, hsttRecSize,
    tts1, htts1, ttsSize, httsSize, tts2, htts2, voicesDir, hvoicesDir, voicesSize, hvoicesSize,
    tts3, htts3, prevDir, hprevDir, prevSize, hprevSize,
    tts4, htts4, ttsRecDir, httsRecDir, ttsRecSize, httsRecSize,
    tts5, htts5, tmpDir, htmpDir, tmpSize, htmpSize,
    venvDir, hvenvDir, venvSize, hvenvSize,
    hfSize, hhfSize, hfPath, hhfPath, hfModels, hhfModels, hfModelsSize, hhfModelsSize,
    models, hmodels, modelItems, hmodelItems, mlist, hmlist, dm, hdm, modelRows, hmodelRows,
    voices, hvoices, voiceItems, hvoiceItems, vlist, hvlist, dvw, hdvw, voiceRows, hvoiceRows,
    totals, htotals, gt, hgt, hfin⟩ := hv
  subst hfin
  have hd : d.isObj = true := (pyGetD_ok hdeps).1
  have hmodels' : models = objGetD d "models" (.obj []) := (pyGetD_ok hmodels).2
  have hvoices' : voices = objGetD d "voices" (.obj []) := (pyGetD_ok hvoices).2
  have htotals' : totals = objGetD d "totals" (.obj []) := (pyGetD_ok htotals).2
  have hgt' : gt = objGetD (objGetD d "totals" (.obj [])) "grand_total_human" (.str "0 B") := by
    rw [← htotals']
    exact (pyGetD_ok hgt).2
  refine ⟨hd, ⟨modelItems, mlist, dm, ?_, hmlist, hdm, ?_⟩,
    ⟨voiceItems, vlist, dvw, ?_, hvlist, hdvw, ?_⟩, ?_⟩
  · rw [← hmodels']; exact hmodelItems
  · rw [hmodelRows]
  · rw [← hvoices']; exact hvoiceItems
  · rw [hvoiceRows]
  · rw [hgt']

/-- Success of the doctor extraction pins down the kokoro-derived
fields: they are the defaulted lookups on the extracted
`engines.kokoro` object. -/
theorem doctorVals_spec {d : Json} {v : DoctorVals} (hv : doctorVals d = .ok v) :
    d.isObj = true ∧
    ∃ k, dvKokoro d = .ok k ∧
      v.kavail = objGetD k "available" .null ∧
      v.kserver = objGetD k "server_running" .null ∧
      v.kvoices = objGetD k "voices" (.num 0) := by
  simp only [doctorVals, exBind_ok_iff, exPure_ok_iff] at hv
  obtain ⟨runtime, hruntime, rtype, hrtype, rtv, hrtv, rpython, hrpython,
    rsox, hrsox, rdata, hrdata, deps, hdeps, system, hsystem, engines, hengines,
    ssox, hssox, safplay, hsafplay, ssay, hssay, whisper, hwhisper, parakeet, hparakeet,
    models1, hmodels1, mwhisper, hmwhisper, models2, hmodels2, mparakeet, hmparakeet,
    piper, hpiper, kokoro, hkokoro, pavail, hpavail, kavail, hkavail, kserver, hkserver,
    pvoices, hpvoices, kvoices, hkvoices, playback, hplayback,
    playbackStatus, hplaybackStatus, kserver2, hkserver2, env, henv, envRows, henvRows,
    hfin⟩ := hv
  subst hfin
  have hd : d.isObj = true := (pyGetD_ok hruntime).1
  have e1 : dvKokoro d =
      (pyGetD d "dependencies" (.obj []) >>= fun deps =>
        pyGetD deps "engines" (.obj []) >>= fun engines =>
        pyGetD engines "kokoro" (.obj [])) := rfl
  refine ⟨hd, kokoro, ?_, (pyGetD_ok hkavail).2, (pyGetD_ok hkserver2).2,
    (pyGetD_ok hkvoices).2⟩
  rw [e1, exBind_ok _ hdeps, exBind_ok _ hengines]
  exact hkokoro

/-! ### Support for the header-stripping analysis -/

theorem labels_ok : ∀ p ∈ headerLabels, p.data ≠ [] ∧ sepFree p.data := by
  show ∀ p ∈ headerLabels, p.data ≠ [] ∧ ∀ c ∈ p.data, isSep c = false
  decide

theorem elem_sub {el : String} {L : List String} (hel : el ∈ L) {c : List Char}
    (hc : SubL c el.data) : SubL c (pyJoin "\n" L).data := by
  obtain ⟨A, B, hAB, _, _⟩ := joinSep_nl_mem (List.mem_map_of_mem String.data hel)
  exact subL_trans hc ⟨A, B, hAB⟩

theorem cell_in_block {ps : List (String × String)} {n : Nat} {aligns : List Align}
    {rows : List (List String)} {row : List String} {c : String}
    (hrow : row ∈ rows) (hcell : c ∈ row)
    (hn : ∀ r ∈ rows, r.length = n) (ha : aligns.length = n)
    (hps : ∀ pq ∈ ps, pq.1.data ≠ [] ∧ sepFree pq.1.data ∧ ¬ SubL pq.1.data c.data) :
    SubL c.data (replaceChain ps (renderTableStr n aligns rows)).data :=
  padOcc_sub (padOcc_chain ps _ hps (padOcc_renderTable hrow hcell hn ha))

theorem hps_of_labels {c : String} (hfree : ∀ p ∈ headerLabels, ¬ Substr p c)
    {ps : List (String × String)} (hsub : ∀ pq ∈ ps, pq.1 ∈ headerLabels) :
    ∀ pq ∈ ps, pq.1.data ≠ [] ∧ sepFree pq.1.data ∧ ¬ SubL pq.1.data c.data :=
  fun pq hpq => ⟨(labels_ok _ (hsub pq hpq)).1, (labels_ok _ (hsub pq hpq)).2,
    hfree pq.1 (hsub pq hpq)⟩

theorem modelRowM_len {m : Json} {r : List String} (h : modelRowM m = .ok r) :
    r.length = 3 := by
  simp only [modelRowM, exBind_ok_iff, exPure_ok_iff] at h
  obtain ⟨p, _, a, _, sz, _, hfin⟩ := h
  rw [← hfin]
  rfl

theorem voiceRowM_len {m : Json} {r : List String} (h : voiceRowM m = .ok r) :
    r.length = 4 := by
  simp only [voiceRowM, exBind_ok_iff, exPure_ok_iff] at h
  obtain ⟨p, _, a, _, pr, _, sz, _, hfin⟩ := h
  rw [← hfin]
  rfl

theorem mapM_modelRow_len :
    ∀ {dm : List Json} {rs : List (List String)}, dm.mapM modelRowM = .ok rs →
      ∀ r ∈ rs, r.length = 3 := by
  intro dm
  induction dm with
  | nil =>
    intro rs h r hr
    rw [List.mapM_nil, exPure_ok_iff] at h
    rw [← h] at hr
    simp at hr
  | cons m ms ih =>
    intro rs h r hr
    rw [List.mapM_cons] at h
    simp only [exBind_ok_iff, exPure_ok_iff] at h
    obtain ⟨b, hb, bs, hbs, hfin⟩ := h
    rw [← hfin] at hr
    rcases List.mem_cons.mp hr with rfl | hr'
    · exact modelRowM_len hb
    · exact ih hbs r hr'

theorem mapM_voiceRow_len :
    ∀ {dm : List Json} {rs : List (List String)}, dm.mapM voiceRowM = .ok rs →
      ∀ r ∈ rs, r.length = 4 := by
  intro dm
  induction dm with
  | nil =>
    intro rs h r hr
    rw [List.mapM_nil, exPure_ok_iff] at h
    rw [← h] at hr
    simp at hr
  | cons m ms ih =>
    intro rs h r hr
    rw [List.mapM_cons] at h
    simp only [exBind_ok_iff, exPure_ok_iff] at h
    obtain ⟨b, hb, bs, hbs, hfin⟩ := h
    rw [← hfin] at hr
    rcases List.mem_cons.mp hr with rfl | hr'
    · exact voiceRowM_len hb
    · exact ih hbs r hr'

theorem endsWith_space_ne {s : String} (hs : EndsWith ' ' s.data) {t : String}
    (ht : t.data.getLast? = some ')') : s ≠ t := by
  intro h
  obtain ⟨z, hz⟩ := hs
  rw [h] at hz
  rw [hz] at ht
  simp at ht

theorem block_label_free {ps : List (String × String)} {n : Nat} {aligns : List Align}
    {rows : List (List String)} (hps : ∀ pq ∈ ps, pq.1 ∈ headerLabels)
    (hcells : ∀ row ∈ rows, ∀ cell ∈ row, ∀ p ∈ headerLabels, ¬ Substr p cell) :
    ∀ p ∈ headerLabels, ¬ SubL p.data (replaceChain ps (renderTableStr n aligns rows)).data := by
  have hraw : ∀ p ∈ headerLabels, ¬ SubL p.data (renderTableL n aligns rows) := by
    intro p hp h
    obtain ⟨row, hrow, cell, hcell, hc⟩ :=
      tableCells (labels_ok p hp).2 (labels_ok p hp).1 h
    exact hcells row hrow cell hcell p hp hc
  have hid : replaceChain ps (renderTableStr n aligns rows) = renderTableStr n aligns rows :=
    chain_id ps _ (fun pq hpq => hraw pq.1 (hps pq hpq))
  rw [hid]
  exact hraw

/-- The renderer-fixed strings appearing as whole `lines` elements. -/
def fixedLines : List String :=
  ["\nVTT Storage Usage", sepLine, "Dependencies", "", "Storage Directories",
   "STT Models", "TTS Voices", "  (no models downloaded)", "  (no voices downloaded)"]

/-- The renderer-fixed table cells (labels and description strings). -/
def fixedCells : List String :=
  ["Python", "Sox", "Data Directory", "  stt/", "    daemon/", "    recordings/",
   "  tts/", "    voices/", "    previews/", "    tmp/", "  venv/",
   "HuggingFace Cache", "  models/", "(daemon, recordings)", "(scripts, logs)",
   "(transcription audio)", "(voices, previews, recordings)",
   "(downloaded TTS voices)", "(voice previews)", "(saved TTS output)",
   "(temporary files)", "(Python environment)", "(STT models)", ""]

theorem labels_not_fixed : ∀ p ∈ headerLabels, ∀ s ∈ fixedLines, ¬ Substr p s := by
  decide

theorem labels_not_fixed_cells : ∀ p ∈ headerLabels, ∀ c ∈ fixedCells, ¬ Substr p c := by
  decide

theorem depsRows_len (v : StorageVals) : ∀ r ∈ depsRows v, r.length = 3 := by
  intro r hr
  simp [depsRows] at hr
  rcases hr with rfl | rfl <;> rfl

theorem dirRows_len (v : StorageVals) : ∀ r ∈ dirRows v, r.length = 3 := by
  intro r hr
  simp [dirRows] at hr
  rcases hr with rfl | rfl | rfl | rfl | rfl | rfl | rfl | rfl | rfl | rfl | rfl | rfl <;> rfl

theorem totalsRows_len (v : StorageVals) : ∀ r ∈ totalsRows v, r.length = 2 := by
  intro r hr
  simp [totalsRows] at hr
  rw [hr]
  rfl

theorem mem_storageCells_model {v : StorageVals} {cell : String} {row : List String}
    (hrow : row ∈ v.modelRows) (hcell : cell ∈ row) : cell ∈ storageCells v := by
  have h1 : cell ∈ v.modelRows.flatten := List.mem_flatten.mpr ⟨row, hrow, hcell⟩
  unfold storageCells
  simp only [List.mem_append]
  tauto

theorem mem_storageCells_voice {v : StorageVals} {cell : String} {row : List String}
    (hrow : row ∈ v.voiceRows) (hcell : cell ∈ row) : cell ∈ storageCells v := by
  have h1 : cell ∈ v.voiceRows.flatten := List.mem_flatten.mpr ⟨row, hrow, hcell⟩
  unfold storageCells
  simp only [List.mem_append]
  tauto

/-- C3 (amended): in the storage view the renderer introduces no
header-label text of its own — for every report whose data cells avoid
the six labels, the output avoids them — and every data cell that does
not contain a header label as a substring appears in the output
unchanged.  A data cell containing a header label may be corrupted by
the literal `.replace` header stripping, so the unconditional claim
fails (see the counterexample). -/
theorem C3_header_stripping (d : Json) (v : StorageVals) (hv : storageVals d = .ok v) :
    formatStorageTable d = .ok (pyJoin "\n" (storageLinesOfVals v)) ∧
    ((∀ p ∈ headerLabels, ∀ c ∈ storageCells v, ¬ Substr p c) →
      ∀ p ∈ headerLabels, ¬ Substr p (pyJoin "\n" (storageLinesOfVals v))) ∧
    (∀ c ∈ storageCells v, (∀ p ∈ headerLabels, ¬ Substr p c) →
      Substr c (pyJoin "\n" (storageLinesOfVals v))) := by
  obtain ⟨hd, ⟨mi, ml, dm, hmi, hml, hdm, hmrows⟩, ⟨vi, vl, dw, hvi, hvl, hdw, hvrows⟩, hgt⟩ :=
    storageVals_spec hv
  have hmlen : ∀ r ∈ v.modelRows, r.length = 3 := mapM_modelRow_len hmrows
  have hvlen : ∀ r ∈ v.voiceRows, r.length = 4 := mapM_voiceRow_len hvrows
  refine ⟨?_, ?_, ?_⟩
  · show (storageVals d).map _ = _
    rw [hv]
    rfl
  · intro hall p hp hsub
    have hpdata := labels_ok p hp
    have hdeps : ∀ p' ∈ headerLabels, ¬ SubL p'.data (depsBlock v).data := by
      apply block_label_free (by decide)
      intro row hrow cell hcell p' hp'
      simp [depsRows] at hrow
      rcases hrow with rfl | rfl <;> simp at hcell <;>
        rcases hcell with rfl | rfl | rfl <;>
      first
        | (refine hall p' hp' _ ?_ ; simp [storageCells] ; done)
        | (refine labels_not_fixed_cells p' hp' _ ?_ ; decide)
    have hdirs : ∀ p' ∈ headerLabels, ¬ SubL p'.data (dirsBlock v).data := by
      apply block_label_free (by decide)
      intro row hrow cell hcell p' hp'
      simp [dirRows] at hrow
      rcases hrow with rfl | rfl | rfl | rfl | rfl | rfl | rfl | rfl | rfl | rfl | rfl | rfl <;>
        simp at hcell <;> rcases hcell with rfl | rfl | rfl <;>
      first
        | (refine hall p' hp' _ ?_ ; simp [storageCells] ; done)
        | (refine labels_not_fixed_cells p' hp' _ ?_ ; decide)
    have hmodels : ∀ p' ∈ headerLabels, ¬ SubL p'.data (modelsOut v).data := by
      intro p' hp'
      by_cases hmo : v.modelRows.isEmpty = true
      · have heq : modelsOut v = "  (no models downloaded)" := by
          unfold modelsOut
          rw [if_pos hmo]
        rw [heq]
        exact labels_not_fixed p' hp' _ (by decide)
      · have heq : modelsOut v = replaceChain [("Alias", "  "), ("Size", ""), ("Path", "")]
            (renderTableStr 3 [Align.l, Align.r, Align.l] v.modelRows) := by
          unfold modelsOut
          rw [if_neg hmo]
        rw [heq]
        apply block_label_free (by decide) _ p' hp'
        intro row hrow cell hcell p'' hp''
        exact hall p'' hp'' _ (mem_storageCells_model hrow hcell)
    have hvoices : ∀ p' ∈ headerLabels, ¬ SubL p'.data (voicesOut v).data := by
      intro p' hp'
      by_cases hmo : v.voiceRows.isEmpty = true
      · have heq : voicesOut v = "  (no voices downloaded)" := by
          unfold voicesOut
          rw [if_pos hmo]
        rw [heq]
        exact labels_not_fixed p' hp' _ (by decide)
      · have heq : voicesOut v =
            replaceChain [("Alias", "  "), ("Provider", ""), ("Size", ""), ("Path", "")]
              (renderTableStr 4 [Align.l, Align.l, Align.r, Align.l] v.voiceRows) := by
          unfold voicesOut
          rw [if_neg hmo]
        rw [heq]
        apply block_label_free (by decide) _ p' hp'
        intro row hrow cell hcell p'' hp''
        exact hall p'' hp'' _ (mem_storageCells_voice hrow hcell)
    have htotals : ∀ p' ∈ headerLabels, ¬ SubL p'.data (totalsBlock v).data := by
      apply block_label_free
        (show ∀ pq ∈ ([] : List (String × String)), pq.1 ∈ headerLabels by simp)
      intro row hrow cell hcell p' hp'
      simp [totalsRows] at hrow
      subst hrow
      simp at hcell
      rcases hcell with rfl | rfl
      · exact labels_not_fixed_cells p' hp' _ (by decide)
      · exact hall p' hp' _ (by simp [storageCells])
    obtain ⟨eld, helD, hsubel⟩ := joinSep_nl_sub hpdata.2 hpdata.1 _ hsub
    obtain ⟨el, hel, rfl⟩ := List.mem_map.mp helD
    have hels : ∀ el' ∈ storageLinesOfVals v, ¬ SubL p.data el'.data := by
      intro el' hel'
      simp [storageLinesOfVals] at hel'
      rcases hel' with rfl | rfl | rfl | rfl | rfl | rfl | rfl | rfl | rfl | rfl | rfl | rfl |
        rfl | rfl | rfl
      · exact labels_not_fixed p hp _ (by decide)
      · exact labels_not_fixed p hp _ (by decide)
      · exact labels_not_fixed p hp _ (by decide)
      · exact hdeps p hp
      · exact labels_not_fixed p hp _ (by decide)
      · exact labels_not_fixed p hp _ (by decide)
      · exact hdirs p hp
      · exact labels_not_fixed p hp _ (by decide)
      · exact labels_not_fixed p hp _ (by decide)
      · exact hmodels p hp
      · exact labels_not_fixed p hp _ (by decide)
      · exact labels_not_fixed p hp _ (by decide)
      · exact hvoices p hp
      · exact labels_not_fixed p hp _ (by decide)
      · exact htotals p hp
    exact hels el hel hsubel
  · intro c hc hfree
    have hps3A : ∀ pq ∈ ([("Name", "  "), ("Size", ""), ("Path", "")] :
        List (String × String)), pq.1 ∈ headerLabels := by decide
    have hps3B : ∀ pq ∈ ([("Name", "  "), ("Size", ""), ("Description", "")] :
        List (String × String)), pq.1 ∈ headerLabels := by decide
    have hps3C : ∀ pq ∈ ([("Alias", "  "), ("Size", ""), ("Path", "")] :
        List (String × String)), pq.1 ∈ headerLabels := by decide
    have hps4 : ∀ pq ∈ ([("Alias", "  "), ("Provider", ""), ("Size", ""), ("Path", "")] :
        List (String × String)), pq.1 ∈ headerLabels := by decide
    have hdeps_cell : ∀ cc : String, (∃ row ∈ depsRows v, cc ∈ row) →
        (∀ p ∈ headerLabels, ¬ Substr p cc) →
        Substr cc (pyJoin "\n" (storageLinesOfVals v)) := by
      rintro cc ⟨row, hrow, hcell⟩ hfr
      refine elem_sub (show depsBlock v ∈ storageLinesOfVals v by simp [storageLinesOfVals]) ?_
      exact cell_in_block hrow hcell (depsRows_len v) rfl (hps_of_labels hfr hps3A)
    have hdirs_cell : ∀ cc : String, (∃ row ∈ dirRows v, cc ∈ row) →
        (∀ p ∈ headerLabels, ¬ Substr p cc) →
        Substr cc (pyJoin "\n" (storageLinesOfVals v)) := by
      rintro cc ⟨row, hrow, hcell⟩ hfr
      refine elem_sub (show dirsBlock v ∈ storageLinesOfVals v by simp [storageLinesOfVals]) ?_
      exact cell_in_block hrow hcell (dirRows_len v) rfl (hps_of_labels hfr hps3B)
    have hmodel_cell : ∀ cc row, row ∈ v.modelRows → cc ∈ row →
        (∀ p ∈ headerLabels, ¬ Substr p cc) →
        Substr cc (pyJoin "\n" (storageLinesOfVals v)) := by
      intro cc row hrow hcell hfr
      have hne : ¬ (v.modelRows.isEmpty = true) := by
        intro habs
        rw [List.isEmpty_iff] at habs
        rw [habs] at hrow
        simp at hrow
      have heq : modelsOut v = replaceChain [("Alias", "  "), ("Size", ""), ("Path", "")]
          (renderTableStr 3 [Align.l, Align.r, Align.l] v.modelRows) := by
        unfold modelsOut
        rw [if_neg hne]
      refine elem_sub (show modelsOut v ∈ storageLinesOfVals v by simp [storageLinesOfVals]) ?_
      rw [heq]
      exact cell_in_block hrow hcell hmlen rfl (hps_of_labels hfr hps3C)
    have hvoice_cell : ∀ cc row, row ∈ v.voiceRows → cc ∈ row →
        (∀ p ∈ headerLabels, ¬ Substr p cc) →
        Substr cc (pyJoin "\n" (storageLinesOfVals v)) := by
      intro cc row hrow hcell hfr
      have hne : ¬ (v.voiceRows.isEmpty = true) := by
        intro habs
        rw [List.isEmpty_iff] at habs
        rw [habs] at hrow
        simp at hrow
      have heq : voicesOut v =
          replaceChain [("Alias", "  "), ("Provider", ""), ("Size", ""), ("Path", "")]
            (renderTableStr 4 [Align.l, Align.l, Align.r, Align.l] v.voiceRows) := by
        unfold voicesOut
        rw [if_neg hne]
      refine elem_sub (show voicesOut v ∈ storageLinesOfVals v by simp [storageLinesOfVals]) ?_
      rw [heq]
      exact cell_in_block hrow hcell hvlen rfl (hps_of_labels hfr hps4)
    have htot_cell : ∀ cc : String, (∃ row ∈ totalsRows v, cc ∈ row) →
        Substr cc (pyJoin "\n" (storageLinesOfVals v)) := by
      rintro cc ⟨row, hrow, hcell⟩
      refine elem_sub (show totalsBlock v ∈ storageLinesOfVals v by simp [storageLinesOfVals]) ?_
      exact cell_in_block hrow hcell (totalsRows_len v)
        (show ([Align.l, Align.r] : List Align).length = 2 from rfl)
        (show ∀ pq ∈ ([] : List (String × String)),
          pq.1.data ≠ [] ∧ sepFree pq.1.data ∧ ¬ SubL pq.1.data cc.data by simp)
    unfold storageCells at hc
    simp only [List.mem_append, List.mem_cons, List.not_mem_nil, or_false,
      List.mem_flatten, List.mem_singleton] at hc
    rcases hc with (((rfl | rfl | rfl | rfl | rfl | rfl | rfl | rfl | rfl | rfl | rfl | rfl |
        rfl | rfl | rfl | rfl | rfl | rfl) | ⟨row, hrow, hcell⟩) | ⟨row, hrow, hcell⟩) | rfl
    · exact hdeps_cell _ ⟨["Python", v.pySize, v.pyPath], by simp [depsRows], by simp⟩ hfree
    · exact hdeps_cell _ ⟨["Python", v.pySize, v.pyPath], by simp [depsRows], by simp⟩ hfree
    · exact hdeps_cell _ ⟨["Sox", v.soxSize, v.soxPath], by simp [depsRows], by simp⟩ hfree
    · exact hdeps_cell _ ⟨["Sox", v.soxSize, v.soxPath], by simp [depsRows], by simp⟩ hfree
    · exact hdirs_cell _ ⟨["Data Directory", v.ddSize, v.ddPath], by simp [dirRows], by simp⟩ hfree
    · exact hdirs_cell _ ⟨["Data Directory", v.ddSize, v.ddPath], by simp [dirRows], by simp⟩ hfree
    · exact hdirs_cell _ ⟨["  stt/", v.sttSize, "(daemon, recordings)"], by simp [dirRows], by simp⟩ hfree
    · exact hdirs_cell _ ⟨["    daemon/", v.daemonSize, "(scripts, logs)"], by simp [dirRows], by simp⟩ hfree
    · exact hdirs_cell _ ⟨["    recordings/", v.sttRecSize, "(transcription audio)"], by simp [dirRows], by simp⟩ hfree
    · exact hdirs_cell _ ⟨["  tts/", v.ttsSize, "(voices, previews, recordings)"], by simp [dirRows], by simp⟩ hfree
    · exact hdirs_cell _ ⟨["    voices/", v.voicesSize, "(downloaded TTS voices)"], by simp [dirRows], by simp⟩ hfree
    · exact hdirs_cell _ ⟨["    previews/", v.prevSize, "(voice previews)"], by simp [dirRows], by simp⟩ hfree
    · exact hdirs_cell _ ⟨["    recordings/", v.ttsRecSize, "(saved TTS output)"], by simp [dirRows], by simp⟩ hfree
    · exact hdirs_cell _ ⟨["    tmp/", v.tmpSize, "(temporary files)"], by simp [dirRows], by simp⟩ hfree
    · exact hdirs_cell _ ⟨["  venv/", v.venvSize, "(Python environment)"], by simp [dirRows], by simp⟩ hfree
    · exact hdirs_cell _ ⟨["HuggingFace Cache", v.hfSize, v.hfPath], by simp [dirRows], by simp⟩ hfree
    · exact hdirs_cell _ ⟨["HuggingFace Cache", v.hfSize, v.hfPath], by simp [dirRows], by simp⟩ hfree
    · exact hdirs_cell _ ⟨["  models/", v.hfModelsSize, "(STT models)"], by simp [dirRows], by simp⟩ hfree
    · exact hmodel_cell _ row hrow hcell hfree
    · exact hvoice_cell _ row hrow hcell hfree
    · exact htot_cell _ ⟨["", v.grandTotal], by simp [totalsRows], by simp⟩

theorem chainPats_ok {ps : List (String × String)} (h : ∀ pq ∈ ps, pq.1 ∈ headerLabels) :
    ∀ pq ∈ ps, pq.1.data ≠ [] ∧ sepFree pq.1.data :=
  fun pq hpq => labels_ok _ (h pq hpq)

theorem storage_models_tie {d : Json} {v : StorageVals} {xs : List Json}
    (hv : storageVals d = .ok v) (hxs : modelsItemsOf d = some xs)
    (hobj : ∀ x ∈ xs, x.isObj = true) :
    v.modelRows = (xs.filter modelKeep).map modelRowOf := by
  obtain ⟨hd, ⟨mi, ml, dm, hmi, hml, hdm, hmrows⟩, _, _⟩ := storageVals_spec hv
  have hitems : objGetD (objGetD d "models" (.obj [])) "items" (.arr []) = .arr xs := by
    unfold modelsItemsOf at hxs
    split at hxs
    · next xs' heq =>
        injection hxs with h1
        rw [heq, h1]
    · simp at hxs
  have hmi' : mi = Json.arr xs := by
    have h2 := (pyGetD_ok hmi).2
    rw [h2, hitems]
  rw [hmi'] at hml
  have hml' : ml = xs := by
    have : (Except.ok xs : Except PyErr (List Json)) = .ok ml := hml
    injection this with h1
    rw [h1]
  rw [hml'] at hdm
  rw [filterDownloaded_obj hobj] at hdm
  have hdm' : dm = xs.filter modelKeep := by
    injection hdm with h1
    rw [h1]
  rw [hdm'] at hmrows
  have hobj' : ∀ x ∈ xs.filter modelKeep, x.isObj = true :=
    fun x hx => hobj x (List.mem_of_mem_filter hx)
  rw [mapM_modelRow hobj'] at hmrows
  injection hmrows with h1
  rw [h1]

theorem storage_voices_tie {d : Json} {v : StorageVals} {xs : List Json}
    (hv : storageVals d = .ok v) (hxs : voicesItemsOf d = some xs)
    (hobj : ∀ x ∈ xs, x.isObj = true) :
    v.voiceRows = (xs.filter voiceKeep).map voiceRowOf := by
  obtain ⟨hd, _, ⟨vi, vl, dw, hvi, hvl, hdw, hvrows⟩, _⟩ := storageVals_spec hv
  have hitems : objGetD (objGetD d "voices" (.obj [])) "items" (.arr []) = .arr xs := by
    unfold voicesItemsOf at hxs
    split at hxs
    · next xs' heq =>
        injection hxs with h1
        rw [heq, h1]
    · simp at hxs
  have hvi' : vi = Json.arr xs := by
    have h2 := (pyGetD_ok hvi).2
    rw [h2, hitems]
  rw [hvi'] at hvl
  have hvl' : vl = xs := by
    have : (Except.ok xs : Except PyErr (List Json)) = .ok vl := hvl
    injection this with h1
    rw [h1]
  rw [hvl'] at hdw
  rw [filterVoices_obj hobj] at hdw
  have hdw' : dw = xs.filter voiceKeep := by
    injection hdw with h1
    rw [h1]
  rw [hdw'] at hvrows
  have hobj' : ∀ x ∈ xs.filter voiceKeep, x.isObj = true :=
    fun x hx => hobj x (List.mem_of_mem_filter hx)
  rw [mapM_voiceRow hobj'] at hvrows
  injection hvrows with h1
  rw [h1]

theorem modelsOut_ne_fallback {v : StorageVals} (hne : v.modelRows ≠ [])
    (hlen : ∀ r ∈ v.modelRows, r.length = 3) :
    modelsOut v ≠ "  (no models downloaded)" := by
  have hemp : ¬ (v.modelRows.isEmpty = true) := fun habs => hne (List.isEmpty_iff.mp habs)
  have hout : modelsOut v = replaceChain [("Alias", "  "), ("Size", ""), ("Path", "")]
      (renderTableStr 3 [Align.l, Align.r, Align.l] v.modelRows) := by
    unfold modelsOut
    rw [if_neg hemp]
  rw [hout]
  have hEnds : EndsWith ' ' (renderTableL 3 [Align.l, Align.r, Align.l] v.modelRows) :=
    renderTable_endsWith hne hlen rfl (by omega)
  have hchain := chain_snoc (w := ' ') (by decide)
    [("Alias", "  "), ("Size", ""), ("Path", "")]
    (renderTableStr 3 [Align.l, Align.r, Align.l] v.modelRows)
    (chainPats_ok (by decide)) hEnds
  exact endsWith_space_ne hchain (by decide)

theorem voicesOut_ne_fallback {v : StorageVals} (hne : v.voiceRows ≠ [])
    (hlen : ∀ r ∈ v.voiceRows, r.length = 4) :
    voicesOut v ≠ "  (no voices downloaded)" := by
  have hemp : ¬ (v.voiceRows.isEmpty = true) := fun habs => hne (List.isEmpty_iff.mp habs)
  have hout : voicesOut v =
      replaceChain [("Alias", "  "), ("Provider", ""), ("Size", ""), ("Path", "")]
        (renderTableStr 4 [Align.l, Align.l, Align.r, Align.l] v.voiceRows) := by
    unfold voicesOut
    rw [if_neg hemp]
  rw [hout]
  have hEnds : EndsWith ' ' (renderTableL 4 [Align.l, Align.l, Align.r, Align.l] v.voiceRows) :=
    renderTable_endsWith hne hlen rfl (by omega)
  have hchain := chain_snoc (w := ' ') (by decide)
    [("Alias", "  "), ("Provider", ""), ("Size", ""), ("Path", "")]
    (renderTableStr 4 [Align.l, Align.l, Align.r, Align.l] v.voiceRows)
    (chainPats_ok (by decide)) hEnds
  exact endsWith_space_ne hchain (by decide)

/-- C5: the STT Models section lists exactly the model items whose
downloaded flag is truthy — one row per kept item with the alias, size
and "N/A"-defaulted path cells of `modelRowOf` — and the
"(no models downloaded)" fallback line is emitted if and only if no
item has a truthy downloaded flag. -/
theorem C5_stt_models (d : Json) (v : StorageVals) (xs : List Json)
    (hv : storageVals d = .ok v) (hxs : modelsItemsOf d = some xs)
    (hobj : ∀ x ∈ xs, x.isObj = true) :
    v.modelRows = (xs.filter modelKeep).map modelRowOf ∧
    formatStorageLines d = .ok (storageLinesOfVals v) ∧
    (storageLinesOfVals v).get? 8 = some "STT Models" ∧
    ((∀ m ∈ xs, modelKeep m = false) ↔
      (storageLinesOfVals v).get? 9 = some "  (no models downloaded)") ∧
    (xs.filter modelKeep ≠ [] →
      (storageLinesOfVals v).get? 9 = some
        (replaceChain [("Alias", "  "), ("Size", ""), ("Path", "")]
          (renderTableStr 3 [Align.l, Align.r, Align.l]
            ((xs.filter modelKeep).map modelRowOf)))) := by
  have h1 : v.modelRows = (xs.filter modelKeep).map modelRowOf :=
    storage_models_tie hv hxs hobj
  have hget9 : (storageLinesOfVals v).get? 9 = some (modelsOut v) := rfl
  refine ⟨h1, ?_, rfl, ?_, ?_⟩
  · show (storageVals d).map _ = _
    rw [hv]
    rfl
  · constructor
    · intro hall
      have hfil : xs.filter modelKeep = [] := by
        apply List.filter_eq_nil_iff.mpr
        intro a ha
        simp [hall a ha]
      have hrows0 : v.modelRows = [] := by rw [h1, hfil]; rfl
      rw [hget9]
      have heq : modelsOut v = "  (no models downloaded)" := by
        unfold modelsOut
        rw [hrows0]
        rfl
      rw [heq]
    · intro h9 m hm
      by_contra hk
      have hkt : modelKeep m = true := by
        cases hmk : modelKeep m
        · exact absurd hmk hk
        · rfl
      have hfilne : v.modelRows ≠ [] := by
        rw [h1]
        intro habs
        have hmem : m ∈ xs.filter modelKeep := List.mem_filter.mpr ⟨hm, hkt⟩
        rw [List.map_eq_nil_iff] at habs
        rw [habs] at hmem
        simp at hmem
      have hlen : ∀ r ∈ v.modelRows, r.length = 3 := by
        rw [h1]
        intro r hr
        obtain ⟨mm, _, rfl⟩ := List.mem_map.mp hr
        rfl
      have hne := modelsOut_ne_fallback hfilne hlen
      rw [hget9] at h9
      injection h9 with h9'
      exact hne h9'
  · intro hf
    rw [hget9]
    have hrowsne : v.modelRows ≠ [] := by
      rw [h1]
      intro habs
      rw [List.map_eq_nil_iff] at habs
      exact hf habs
    have hemp : ¬ (v.modelRows.isEmpty = true) :=
      fun habs => hrowsne (List.isEmpty_iff.mp habs)
    have heq : modelsOut v = replaceChain [("Alias", "  "), ("Size", ""), ("Path", "")]
        (renderTableStr 3 [Align.l, Align.r, Align.l] v.modelRows) := by
      unfold modelsOut
      rw [if_neg hemp]
    rw [heq, h1]

/-- Input for the C5 witness: one downloaded and one not-downloaded
model item. -/
def c5In : Json :=
  .obj [("models", .obj [("items", .arr
    [.obj [("downloaded", .bool true), ("alias", .str "base"),
           ("size_human", .str "1 B"), ("path", .str "/m")],
     .obj [("downloaded", .bool false), ("alias", .str "big")]])])]

/-- The items list of `c5In`. -/
def c5Xs : List Json :=
  [.obj [("downloaded", .bool true), ("alias", .str "base"),
         ("size_human", .str "1 B"), ("path", .str "/m")],
   .obj [("downloaded", .bool false), ("alias", .str "big")]]

theorem C5_stt_models_witness : ∃ v, storageVals c5In = .ok v ∧
    v.modelRows = (c5Xs.filter modelKeep).map modelRowOf ∧
    (storageLinesOfVals v).get? 8 = some "STT Models" := by
  refine ⟨_, rfl, ?_, ?_⟩
  · exact (C5_stt_models c5In _ c5Xs rfl rfl (by decide)).1
  · exact (C5_stt_models c5In _ c5Xs rfl rfl (by decide)).2.2.1

/-- C4 (amended): the TTS Voices section lists exactly the voice items
with a truthy downloaded flag and provider not equal to the literal
"system" — one row per kept item per `voiceRowOf` — and when that
filtered list is empty the section renders exactly the line
"  (no voices downloaded)", which carries a two-space indent (the
claim's unindented "(no voices downloaded)" is not the rendered line,
see the counterexample). -/
theorem C4_tts_voices (d : Json) (v : StorageVals) (xs : List Json)
    (hv : storageVals d = .ok v) (hxs : voicesItemsOf d = some xs)
    (hobj : ∀ x ∈ xs, x.isObj = true) :
    v.voiceRows = (xs.filter voiceKeep).map voiceRowOf ∧
    formatStorageLines d = .ok (storageLinesOfVals v) ∧
    (storageLinesOfVals v).get? 11 = some "TTS Voices" ∧
    (xs.filter voiceKeep = [] ↔
      (storageLinesOfVals v).get? 12 = some "  (no voices downloaded)") ∧
    (xs.filter voiceKeep ≠ [] →
      (storageLinesOfVals v).get? 12 = some
        (replaceChain [("Alias", "  "), ("Provider", ""), ("Size", ""), ("Path", "")]
          (renderTableStr 4 [Align.l, Align.l, Align.r, Align.l]
            ((xs.filter voiceKeep).map voiceRowOf)))) := by
  have h1 : v.voiceRows = (xs.filter voiceKeep).map voiceRowOf :=
    storage_voices_tie hv hxs hobj
  have hget12 : (storageLinesOfVals v).get? 12 = some (voicesOut v) := rfl
  refine ⟨h1, ?_, rfl, ?_, ?_⟩
  · show (storageVals d).map _ = _
    rw [hv]
    rfl
  · constructor
    · intro hfil
      have hrows0 : v.voiceRows = [] := by rw [h1, hfil]; rfl
      rw [hget12]
      have heq : voicesOut v = "  (no voices downloaded)" := by
        unfold voicesOut
        rw [hrows0]
        rfl
      rw [heq]
    · intro h12
      by_contra hf
      have hrowsne : v.voiceRows ≠ [] := by
        rw [h1]
        intro habs
        rw [List.map_eq_nil_iff] at habs
        exact hf habs
      have hlen : ∀ r ∈ v.voiceRows, r.length = 4 := by
        rw [h1]
        intro r hr
        obtain ⟨mm, _, rfl⟩ := List.mem_map.mp hr
        rfl
      have hne := voicesOut_ne_fallback hrowsne hlen
      rw [hget12] at h12
      injection h12 with h12'
      exact hne h12'
  · intro hf
    rw [hget12]
    have hrowsne : v.voiceRows ≠ [] := by
      rw [h1]
      intro habs
      rw [List.map_eq_nil_iff] at habs
      exact hf habs
    have hemp : ¬ (v.voiceRows.isEmpty = true) :=
      fun habs => hrowsne (List.isEmpty_iff.mp habs)
    have heq : voicesOut v =
        replaceChain [("Alias", "  "), ("Provider", ""), ("Size", ""), ("Path", "")]
          (renderTableStr 4 [Align.l, Align.l, Align.r, Align.l] v.voiceRows) := by
      unfold voicesOut
      rw [if_neg hemp]
    rw [heq, h1]

/-- C4 counterexample: on the empty report the voices section's
rendered line is the two-space-indented "  (no voices downloaded)",
not the claim's exact line "(no voices downloaded)". -/
theorem C4_tts_voices_counterexample : ∃ L,
    formatStorageLines (Json.obj []) = .ok L ∧
    L.get? 12 = some "  (no voices downloaded)" ∧
    L.get? 12 ≠ some "(no voices downloaded)" := by
  refine ⟨_, rfl, rfl, ?_⟩
  intro h
  injection h with h1
  exact absurd h1 (by decide)

theorem C4_tts_voices_witness : ∃ v, storageVals (Json.obj []) = .ok v ∧
    (storageLinesOfVals v).get? 12 = some "  (no voices downloaded)" := by
  refine ⟨_, rfl, ?_⟩
  exact ((C4_tts_voices (Json.obj []) _ [] rfl rfl (by simp)).2.2.2.1).mp rfl

/-- Input for the C3 counterexample: a downloaded model whose path cell
contains the header label "Path" as a substring. -/
def c3In : Json :=
  .obj [("models", .obj [("items", .arr
    [.obj [("downloaded", .bool true), ("alias", .str "a"),
           ("size_human", .str "1 B"), ("path", .str "PathX")]])])]

set_option maxRecDepth 20000 in
/-- C3 counterexample: the report's data cell "PathX" (a model path)
does not appear in the rendered storage output — the literal
`.replace("Path", "")` header stripping corrupts it — refuting the
claim that every data cell appears unchanged even when it contains a
header label. -/
theorem C3_header_stripping_counterexample : ∃ v out,
    storageVals c3In = .ok v ∧ "PathX" ∈ storageCells v ∧
    formatStorageTable c3In = .ok out ∧ ¬ Substr "PathX" out := by
  refine ⟨_, _, rfl, by decide, rfl, by decide⟩

theorem C3_header_stripping_witness : ∃ v,
    storageVals (Json.obj []) = .ok v ∧
    formatStorageTable (Json.obj []) = .ok (pyJoin "\n" (storageLinesOfVals v)) := by
  refine ⟨_, rfl, ?_⟩
  exact (C3_header_stripping (Json.obj []) _ rfl).1

theorem objGetD_not_has {j : Json} {k : String} {dflt : Json}
    (h : objHasKey j k = false) : objGetD j k dflt = dflt := by
  cases j <;> simp_all [objHasKey, objGetD]

/-- C10: whenever extraction succeeds, the storage `lines` list is the
fixed fifteen-element skeleton in fixed order — title, 60-character
"=" separator, the four section headings at fixed positions, and the
final total table whose size cell is `totals.grand_total_human`
defaulting to "0 B". -/
theorem C10_storage_skeleton (d : Json) (v : StorageVals)
    (hv : storageVals d = .ok v) :
    formatStorageLines d = .ok (storageLinesOfVals v) ∧
    (storageLinesOfVals v).length = 15 ∧
    (storageLinesOfVals v).get? 0 = some "\nVTT Storage Usage" ∧
    (storageLinesOfVals v).get? 1 = some (⟨List.replicate 60 '='⟩ ++ "\n") ∧
    (storageLinesOfVals v).get? 2 = some "Dependencies" ∧
    (storageLinesOfVals v).get? 5 = some "Storage Directories" ∧
    (storageLinesOfVals v).get? 8 = some "STT Models" ∧
    (storageLinesOfVals v).get? 11 = some "TTS Voices" ∧
    (storageLinesOfVals v).get? 14 =
      some (renderTableStr 2 [Align.l, Align.r] [["", v.grandTotal]]) ∧
    v.grandTotal =
      pyStr (objGetD (objGetD d "totals" (.obj [])) "grand_total_human" (.str "0 B")) ∧
    (objHasKey d "totals" = false → v.grandTotal = "0 B") := by
  obtain ⟨hd, _, _, hgt⟩ := storageVals_spec hv
  refine ⟨?_, rfl, rfl, rfl, rfl, rfl, rfl, rfl, rfl, hgt, ?_⟩
  · show (storageVals d).map _ = _
    rw [hv]
    rfl
  · intro hkey
    rw [hgt, objGetD_not_has hkey]
    rfl

theorem C10_storage_skeleton_witness : ∃ v, storageVals (Json.obj []) = .ok v ∧
    (storageLinesOfVals v).length = 15 ∧ v.grandTotal = "0 B" := by
  refine ⟨_, rfl, (C10_storage_skeleton (Json.obj []) _ rfl).2.1, ?_⟩
  exact (C10_storage_skeleton (Json.obj []) _ rfl).2.2.2.2.2.2.2.2.2.2 rfl

/-! ### The doctor-view claims -/

/-- String suffix relation. -/
def strEndsWith (s suf : String) : Prop := ∃ z, s.data = z ++ suf.data

theorem strEndsWith_append (a suf : String) : strEndsWith (a ++ suf) suf :=
  ⟨a.data, rfl⟩

theorem not_endsWith_short {s suf : String} (h : s.data.length < suf.data.length) :
    ¬ strEndsWith s suf := by
  rintro ⟨z, hz⟩
  have hlen := congrArg List.length hz
  simp [List.length_append] at hlen h
  omega

/-- Input exhibiting the unguarded `playback['pid']` access: playback
active but no pid recorded. -/
def c1In : Json := .obj [("playback", .obj [("active", .bool true)])]

/-- C1 (code bug): on a report with `playback.active` truthy and
`playback.pid` absent the doctor script raises `KeyError` from the
unguarded `playback['pid']` subscript instead of substituting a
default, so rendering fails contrary to the never-fail contract. -/
theorem C1_missing_pid_raises : doctorMain c1In = .error .keyError := rfl

/-- C2: a non-object top-level JSON value makes both views fail (with
the `AttributeError` that the first defaulted `.get` on the non-dict
raises, the realization of the spec's `MalformedInput`), and by
construction the failing run returns no output at all. -/
theorem C2_non_object_fails (d : Json) (h : d.isObj = false) :
    doctorMain d = .error .attributeError ∧
    formatStorageTable d = .error .attributeError := by
  cases d with
  | obj fs => simp [Json.isObj] at h
  | null => exact ⟨rfl, rfl⟩
  | bool b => exact ⟨rfl, rfl⟩
  | num n => exact ⟨rfl, rfl⟩
  | str s => exact ⟨rfl, rfl⟩
  | arr xs => exact ⟨rfl, rfl⟩

theorem C2_non_object_fails_witness :
    (Json.num 5).isObj = false ∧
    doctorMain (Json.num 5) = .error .attributeError ∧
    formatStorageTable (Json.num 5) = .error .attributeError :=
  ⟨rfl, C2_non_object_fails (Json.num 5) rfl⟩

/-- C8: rendering is a pure function of the parsed report — both
embedded renderers are deterministic functions, so rendering the same
report twice produces identical output. -/
theorem C8_deterministic (d : Json) :
    doctorMain d = doctorMain d ∧ formatStorageTable d = formatStorageTable d :=
  ⟨rfl, rfl⟩

/-- Input for C6: a report declaring a bundled runtime. -/
def c6In : Json := .obj [("runtime", .obj [("type", .str "bundled")])]

/-- C6 (code bug): the doctor script computes the transformed
runtime-type label "✓ Bundled (self-contained)" (dead variable
`runtime_type_value`, line 18) but never adds it to any table: the
rendered output of a bundled-runtime report contains no "Bundled" text
anywhere, and the Runtime table holds only the Python/Sox/Data rows. -/
theorem C6_runtime_type_never_displayed : ∃ L t,
    doctorMain c6In = .ok L ∧
    runtimeTypeValue (.str "bundled") = .ok "✓ Bundled (self-contained)" ∧
    doctorTables c6In = .ok t ∧
    t.runtimeRows = [["Python", ""], ["Sox", ""], ["Data", ""]] ∧
    ∀ s ∈ L, ¬ Substr "Bundled" s := by
  refine ⟨_, _, rfl, rfl, rfl, rfl, ?_⟩
  decide

/-- C7: the Text-to-Speech Kokoro row's status carries the " (server)"
suffix exactly when `engines.kokoro.server_running` is truthy, the
voice-count cell is the stringified `kokoro.voices` defaulting to 0,
and in particular available+server_running with 3 voices renders
"✓ (server)" and "3". -/
theorem C7_kokoro_tts (d k : Json) (v : DoctorVals) (hv : doctorVals d = .ok v)
    (hk : dvKokoro d = .ok k) :
    ∃ prow st vc, (doctorTablesOfVals v).ttsRows = [prow, ["Kokoro", st, vc]] ∧
      (strEndsWith st " (server)" ↔ pyTruthy (objGetD k "server_running" .null) = true) ∧
      vc = pyStr (objGetD k "voices" (.num 0)) ∧
      (objHasKey k "voices" = false → vc = "0") ∧
      (objGetD k "available" .null = .bool true ∧
        objGetD k "server_running" .null = .bool true ∧
        objGetD k "voices" (.num 0) = .num 3 →
        st = "✓ (server)" ∧ vc = "3") := by
  obtain ⟨hd, k', hk', ha, hs, hvv⟩ := doctorVals_spec hv
  have hkk : k' = k := by
    have h2 := hk'.symm.trans hk
    injection h2
  subst hkk
  refine ⟨["Piper", glyph v.pavail, pyStr v.pvoices],
    glyph v.kavail ++ (if pyTruthy v.kserver then " (server)" else ""), pyStr v.kvoices,
    rfl, ?_, ?_, ?_, ?_⟩
  · rw [hs]
    by_cases hsrv : pyTruthy (objGetD k' "server_running" Json.null) = true
    · rw [if_pos hsrv]
      exact iff_of_true (strEndsWith_append _ _) hsrv
    · rw [if_neg hsrv]
      refine iff_of_false ?_ hsrv
      apply not_endsWith_short
      by_cases hg : pyTruthy v.kavail = true
      · unfold glyph
        rw [if_pos hg]
        decide
      · unfold glyph
        rw [if_neg hg]
        decide
  · exact congrArg pyStr hvv
  · intro hkey
    rw [hvv, objGetD_not_has hkey]
    rfl
  · rintro ⟨h1, h2, h3⟩
    constructor
    · rw [hs, h2, ha, h1]
      rfl
    · rw [hvv, h3]
      rfl

/-- Input for the C7 and C9 witnesses: kokoro available with a running
server and three voices. -/
def c7In : Json :=
  .obj [("dependencies", .obj [("engines", .obj [("kokoro",
    .obj [("available", .bool true), ("server_running", .bool true),
          ("voices", .num 3)])])])]

/-- The kokoro object of `c7In`. -/
def c7K : Json :=
  .obj [("available", .bool true), ("server_running", .bool true), ("voices", .num 3)]

theorem C7_kokoro_tts_witness : ∃ v, doctorVals c7In = .ok v ∧
    ∃ prow st vc, (doctorTablesOfVals v).ttsRows = [prow, ["Kokoro", st, vc]] ∧
      st = "✓ (server)" ∧ vc = "3" := by
  refine ⟨_, rfl, ?_⟩
  obtain ⟨prow, st, vc, h1, _, _, _, h5⟩ := C7_kokoro_tts c7In c7K _ rfl rfl
  obtain ⟨h6, h7⟩ := h5 ⟨rfl, rfl, rfl⟩
  exact ⟨prow, st, vc, h1, h6, h7⟩

/-- C9: the Background Services row "Kokoro Server" reads "Running"
exactly when the Text-to-Speech Kokoro status carries the " (server)"
suffix — both renderings are derived from the same
`engines.kokoro.server_running` flag. -/
theorem C9_kokoro_consistency (d : Json) (v : DoctorVals)
    (hv : doctorVals d = .ok v) :
    ∃ prow pb st kv r, (doctorTablesOfVals v).ttsRows = [prow, ["Kokoro", st, kv]] ∧
      (doctorTablesOfVals v).servicesRows = [pb, ["Kokoro Server", r]] ∧
      (r = "Running" ↔ strEndsWith st " (server)") := by
  refine ⟨_, _, _, _, _, rfl, rfl, ?_⟩
  by_cases hsrv : pyTruthy v.kserver = true
  · simp only [if_pos hsrv]
    exact iff_of_true trivial (strEndsWith_append _ _)
  · simp only [if_neg hsrv]
    refine iff_of_false ?_ ?_
    · intro habs
      exact absurd habs (by decide)
    · apply not_endsWith_short
      by_cases hg : pyTruthy v.kavail = true
      · unfold glyph
        rw [if_pos hg]
        decide
      · unfold glyph
        rw [if_neg hg]
        decide

theorem C9_kokoro_consistency_witness : ∃ v, doctorVals c7In = .ok v ∧
    ∃ prow pb st kv r, (doctorTablesOfVals v).ttsRows = [prow, ["Kokoro", st, kv]] ∧
      (doctorTablesOfVals v).servicesRows = [pb, ["Kokoro Server", r]] ∧
      (r = "Running" ↔ strEndsWith st " (server)") :=
  ⟨_, rfl, C9_kokoro_consistency c7In _ rfl⟩
